import Mathlib

/-! Verification of the minter-bot core pipeline: the mint-intent classifier
(`src/filters.ts`), the calldata address-substitution engine
(`src/calldata_utils.ts`), the replay orchestrator (`attemptMintAllKeys` /
`attemptSingleMint`), and the chain watcher's per-transaction processing and
batch scheduling (`src/monitor.ts`).

JavaScript strings are embedded as `List Char` (`Str`).  `substring(a, b)`
becomes `(s.drop a).take (b - a)`, `substring(a)` becomes `s.drop a`,
`toLowerCase()` becomes `List.map Char.toLower` (the data handled by the bot
is ASCII hex, where `Char.toLower` agrees with JavaScript), `padStart(n, c)`
becomes zero-or-more copies of `c` prepended, `includes` / `indexOf` become
an explicit first-occurrence scan, and `replace(pat, '')` (which removes only
the first occurrence) becomes `removeFirst`.

Network-facing calls (gas estimation, transaction broadcast, wallet
construction) are oracles collected in an `Env` record; every internal
observable action is recorded in an effect trace so that "no pre-check / no
broadcast occurred" is a statement about the trace.  The unbounded
scan-and-replace loop of `genericReplaceAddress` is embedded with explicit
fuel (`none` = the JavaScript loop has not finished within `fuel` rounds).
-/

/-- JavaScript strings, embedded as lists of characters. -/
abbrev Str := List Char

/-- Coerce a Lean string literal to the embedding type. -/
def str (s : String) : Str := s.data

/-- JavaScript `toLowerCase()` on ASCII data. -/
def lower (s : Str) : Str := s.map Char.toLower

/-- JavaScript `s.indexOf(pat)`: index of the first occurrence of `pat` in
`s`, or `none` (JavaScript returns `-1`). -/
def indexOfSub (s pat : Str) : Option Nat :=
  if pat.isPrefixOf s then some 0
  else
    match s with
    | [] => none
    | _ :: t => (indexOfSub t pat).map (· + 1)

/-- JavaScript `s.includes(pat)`. -/
def isSubstr (s pat : Str) : Bool := (indexOfSub s pat).isSome

/-- JavaScript `s.replace(pat, '')`: remove the first occurrence of `pat`. -/
def removeFirst (pat s : Str) : Str :=
  match indexOfSub s pat with
  | none => s
  | some i => s.take i ++ s.drop (i + pat.length)

/-- JavaScript `s.padStart(n, c)` (never truncates). -/
def padStart (n : Nat) (c : Char) (s : Str) : Str :=
  List.replicate (n - s.length) c ++ s

-- ─── Mint classifier (src/filters.ts, lines 94-198 variant) ───

/-- Known DeFi / token operations to ignore (`TOKEN_FUNCTION_BLACKLIST`). -/
def TOKEN_FUNCTION_BLACKLIST : List Str :=
  [str "0xa9059cbb", str "0x095ea7b3", str "0x23b872dd", str "0x38ed1739",
   str "0xfb3bdb41", str "0x7ff36ab5", str "0x18cbafe5", str "0x5c11d795",
   str "0xb6f9de95", str "0xac9650d8", str "0x414bf389", str "0xad9d4f64",
   str "0x12a7b935", str "0xa22cb465", str "0x095ea7b3", str "0x42842712",
   str "0xb88d4fde", str "0x2e1a7d4d", str "0xd0e30db0"]

/-- Known NFT mint functions to allow (`MINT_FUNCTION_WHITELIST`). -/
def MINT_FUNCTION_WHITELIST : List Str :=
  [str "0x1249c58b", str "0x6a627842", str "0xa0712d68", str "0x2db11544",
   str "0x4e71d92d", str "0x84bb1e42", str "0x40c10f19", str "0x161ac21f",
   str "0x94b91883"]

/-- Embedding of `isLikelyNFTMint` (absent calldata is embedded as `[]`,
matching the falsiness of the empty string / missing field). -/
def isLikelyNFTMint (txData : Str) : Bool :=
  if txData = [] ∨ txData = str "0x" then false
  else
    let functionSig := lower (txData.take 10)
    if TOKEN_FUNCTION_BLACKLIST.contains functionSig then false
    else if MINT_FUNCTION_WHITELIST.contains functionSig then true
    else
      let dataLength := txData.length
      if dataLength < 200 then true
      else if dataLength > 600 then false
      else true

/-- Reference classifier, written out following the specification text: the
empty-call sentinel is rejected, then the deny-list is consulted, then the
allow-list, then the length heuristic (below the short threshold accept,
above the long threshold reject, in between accept). -/
def classifierReference (txData : Str) : Bool :=
  if txData = [] then false
  else if txData = str "0x" then false
  else
    let sel := lower (txData.take 10)
    if TOKEN_FUNCTION_BLACKLIST.contains sel then false
    else if MINT_FUNCTION_WHITELIST.contains sel then true
    else if 200 ≤ txData.length ∧ txData.length ≤ 600 then true
    else if txData.length < 200 then true
    else false

-- ─── Calldata transformer (src/calldata_utils.ts) ───

/-- Hex digit test (both cases), as used by the ABI byte parser. -/
def isHexChar (c : Char) : Bool :=
  decide ((48 ≤ c.toNat ∧ c.toNat ≤ 57) ∨ (97 ≤ c.toNat ∧ c.toNat ≤ 102) ∨
          (65 ≤ c.toNat ∧ c.toNat ≤ 70))

/-- Every character is a hex digit. -/
def allHex (s : Str) : Bool := s.all isHexChar

/-- Numeric value of a hex digit (0 for non-digits; always < 16). -/
def hexVal (c : Char) : Nat :=
  if 48 ≤ c.toNat ∧ c.toNat ≤ 57 then c.toNat - 48
  else if 97 ≤ c.toNat ∧ c.toNat ≤ 102 then c.toNat - 87
  else if 65 ≤ c.toNat ∧ c.toNat ≤ 70 then c.toNat - 55
  else 0

/-- Lowercase hex digit for a value < 16. -/
def hexDigit (m : Nat) : Char :=
  if m < 10 then Char.ofNat (48 + m) else Char.ofNat (87 + m)

/-- Big-endian value of a hex string. -/
def parseHex : Str → Nat
  | [] => 0
  | c :: t => hexVal c * 16 ^ t.length + parseHex t

/-- Big-endian hex rendering of `v` in exactly `n` digits (the shape of a
32-byte ABI word produced by the ABI coder when `n = 64`). -/
def toHexN : Nat → Nat → Str
  | 0, _ => []
  | n + 1, v => toHexN n (v / 16) ++ [hexDigit (v % 16)]

/-- Render a value as one 32-byte ABI word (64 hex digits). -/
def toHex64 (v : Nat) : Str := toHexN 64 v

/-- Model of `AbiCoder.decode(['address','uint256'], '0x' + params)`: the
byte string must be valid hex of even length carrying at least two 32-byte
words, and the first word must fit in 20 bytes (its top 24 hex digits are
zero) or the address coder throws.  The decoded address is returned in
lowercase normal form; extra trailing bytes are ignored, as in ethers. -/
def decodeAddressUint256 (params : Str) : Option (Str × Nat) :=
  if params.length % 2 = 0 ∧ allHex params ∧ 128 ≤ params.length ∧
     (params.take 24).all (· == '0') then
    some (str "0x" ++ lower ((params.take 64).drop 24),
          parseHex ((params.drop 64).take 64))
  else none

/-- Valid 20-byte address literal: `0x` followed by 40 hex digits (ethers
additionally rejects a bad mixed-case checksum; the pipeline only ever
supplies correctly checksummed signer addresses, so that rejection path is
not modelled). -/
def validAddressStr (a : Str) : Bool :=
  a.take 2 == str "0x" && a.length == 42 && allHex (a.drop 2)

/-- ABI encoding of an address as one 32-byte word (lowercase, left-padded
with zeros). -/
def encodeAddressWord (a : Str) : Str := padStart 64 '0' (lower (a.drop 2))

/-- Model of `AbiCoder.encode(['address','uint256'], [a, v])`; `none` models
the throw on an invalid address or out-of-range value. -/
def encodeAddressUint256 (a : Str) (v : Nat) : Option Str :=
  if validAddressStr a ∧ v < 16 ^ 64 then some (encodeAddressWord a ++ toHex64 v)
  else none

/-- Model of `AbiCoder.decode(['address','address','address','uint256'], ...)`
for SeaDrop `mintPublic`. -/
def decodeSeaDropMintPublic (params : Str) : Option (Str × Str × Str × Nat) :=
  if params.length % 2 = 0 ∧ allHex params ∧ 256 ≤ params.length ∧
     (params.take 24).all (· == '0') ∧
     (((params.drop 64).take 24).all (· == '0')) ∧
     (((params.drop 128).take 24).all (· == '0')) then
    some (str "0x" ++ lower ((params.take 64).drop 24),
          str "0x" ++ lower (((params.drop 64).take 64).drop 24),
          str "0x" ++ lower (((params.drop 128).take 64).drop 24),
          parseHex ((params.drop 192).take 64))
  else none

/-- Model of `AbiCoder.encode(['address','address','address','uint256'], ...)`. -/
def encodeSeaDropMintPublic (a0 a1 a2 : Str) (v : Nat) : Option Str :=
  if validAddressStr a0 ∧ validAddressStr a1 ∧ validAddressStr a2 ∧ v < 16 ^ 64 then
    some (encodeAddressWord a0 ++ encodeAddressWord a1 ++ encodeAddressWord a2 ++ toHex64 v)
  else none

/-- Embedding of `replaceRecipientInCalldata`: selector-keyed rewriting of the
recipient address, falling back to the unmodified calldata when decoding (or
re-encoding) fails. -/
def replaceRecipientInCalldata (originalData newRecipient : Str) : Str :=
  let functionSig := originalData.take 10
  let params := originalData.drop 10
  if functionSig = str "0x40c10f19" then
    match decodeAddressUint256 params with
    | some (_, tokenId) =>
      match encodeAddressUint256 newRecipient tokenId with
      | some newParams => functionSig ++ newParams
      | none => originalData
    | none => originalData
  else if functionSig = str "0x6a627842" then
    if validAddressStr newRecipient then functionSig ++ encodeAddressWord newRecipient
    else originalData
  else if functionSig = str "0x26bf076a" then
    match decodeSeaDropMintPublic params with
    | some (a0, a1, _, quantity) =>
      match encodeSeaDropMintPublic a0 a1 newRecipient quantity with
      | some newParams => functionSig ++ newParams
      | none => originalData
    | none => originalData
  else if functionSig = str "0x4b61cd6f" then
    if 192 ≤ params.length then
      functionSig ++ params.take 64 ++ ((params.drop 64).take 64) ++
        padStart 64 '0' (removeFirst (str "0x") (lower newRecipient)) ++
        params.drop 192
    else originalData
  else if functionSig = str "0x2e69ed7f" ∨ functionSig = str "0x6ab93230" then
    if 192 ≤ params.length then
      functionSig ++ params.take 64 ++ ((params.drop 64).take 64) ++
        padStart 64 '0' (removeFirst (str "0x") (lower newRecipient)) ++
        params.drop 192
    else originalData
  else originalData

/-- Selectors whose recipient parameter has a known fixed slot. -/
def addressMintFunctions : List Str :=
  [str "0x40c10f19", str "0x6a627842", str "0x4b61cd6f", str "0x26bf076a",
   str "0x2e69ed7f", str "0x6ab93230"]

/-- Embedding of `needsAddressReplacement`. -/
def needsAddressReplacement (data : Str) : Bool :=
  addressMintFunctions.contains (data.take 10)

/-- Normalized padded encoding of an address: lowercase, first `0x` removed,
zero-left-padded to 64 hex characters (the expression
`address.toLowerCase().replace('0x', '').padStart(64, '0')`). -/
def normalizePadded (address : Str) : Str :=
  padStart 64 '0' (removeFirst (str "0x") (lower address))

/-- Embedding of `calldataContainsAddress`. -/
def calldataContainsAddress (data address : Str) : Bool :=
  isSubstr (lower (data.drop 10)) (normalizePadded address)

/-- The scan-and-replace loop of `genericReplaceAddress`, with explicit fuel:
`none` means the JavaScript `while` loop has not terminated within `fuel`
iterations. -/
def replaceAllLoop (fuel : Nat) (originalPadded newPadded params : Str)
    (count : Nat) : Option (Str × Nat) :=
  match fuel with
  | 0 => none
  | fuel + 1 =>
    match indexOfSub (lower params) originalPadded with
    | none => some (params, count)
    | some idx =>
      replaceAllLoop fuel originalPadded newPadded
        (params.take idx ++ newPadded ++ params.drop (idx + originalPadded.length))
        (count + 1)

/-- Embedding of `genericReplaceAddress` (fuelled). -/
def genericReplaceAddressF (fuel : Nat)
    (calldata originalAddress newAddress : Str) : Option (Str × Nat) :=
  let originalPadded := normalizePadded originalAddress
  let newPadded := normalizePadded newAddress
  if originalPadded = newPadded then some (calldata, 0)
  else
    let selector := calldata.take 10
    let params := calldata.drop 10
    match replaceAllLoop fuel originalPadded newPadded params 0 with
    | some (p, n) => some (selector ++ p, n)
    | none => none

-- ─── Termination analysis of the generic scan-and-replace loop ───

/-- Bit contributed by one character to the loop variant: 1 when the
character lowercases to the distinguished character `pd`. -/
def chBit (pd c : Char) : Nat := if c.toLower = pd then 1 else 0

/-- Loop variant for the scan-and-replace loop: the big-endian binary value
of the `chBit` image of the string. -/
def phi (pd : Char) : Str → Nat
  | [] => 0
  | c :: t => chBit pd c * 2 ^ t.length + phi pd t

-- ─── Replay orchestrator (attemptSingleMint / attemptMintAllKeys) ───

/-- An observed on-chain transaction (`ethers.TransactionResponse`), as used
by the replay pipeline: `toAddr` is `null` for contract-creation
transactions, `value` is the native value in wei. -/
structure Tx where
  toAddr : Option Str
  fromAddr : Str
  data : Str
  value : Nat
  hash : Str
deriving DecidableEq

/-- One signing-key record as passed to `attemptMintAllKeys`
(`{ privateKey, name, address, autoList }`). -/
structure KeyRec where
  privateKey : Str
  name : Option Str
  address : Str
  autoList : Bool
deriving DecidableEq

/-- The transaction request built for pre-check and broadcast
(`{ to, data, value: 0n }`). -/
structure TxRequest where
  toAddr : Str
  data : Str
  value : Nat
deriving DecidableEq

/-- Observable actions of one replay attempt, recorded in program order:
calldata transformations, the gas-estimation pre-check, the broadcast, the
`store.recordMintAttempt` bookkeeping call, Telegram notifications, and the
detached confirmation wait. -/
inductive Eff where
  | transformKnown : Eff
  | transformGeneric : Nat → Eff
  | precheckCall : Eff
  | broadcastCall : Eff
  | record : Bool → Eff
  | notify : Eff
  | awaitReceipt : Str → Eff
deriving DecidableEq

/-- Embedding of the `MintResult` interface.  The optional `autoList` field
is never assigned by `attemptSingleMint` / `attemptMintAllKeys` and is
omitted; the optional `skippedPrecheck` flag is embedded as a boolean that
defaults to `false` (absent = falsy). -/
structure MintResult where
  success : Bool
  keyName : Option Str
  address : Str
  txHash : Option Str := none
  explorerUrl : Option Str := none
  error : Option Str := none
  skippedPrecheck : Bool := false
deriving DecidableEq

/-- Network-facing oracles.  `estimateGas` returns `none` on success and
`some reason` on failure, where `reason` is the already-classified pre-check
failure message (the substring taxonomy of `preCheckMint`, lines 102-141,
is folded into the oracle: no claim depends on the individual reason
strings, only on pass / fail and on whether the call happened).  `send`
returns the broadcast transaction hash or the thrown provider message.
`derive` models `new ethers.Wallet(privateKey, provider)`: the derived
signer address, or a throw for a malformed private key. -/
structure Env where
  estimateGas : Str → TxRequest → Option Str
  send : Str → TxRequest → Except Str Str
  derive : Str → Except Str Str

/-- Embedding of `getExplorerUrl`. -/
def getExplorerUrl (chainName txHash : Str) : Str :=
  if chainName = str "BASE" then str "https://basescan.org/tx/" ++ txHash
  else if chainName = str "ARB" then str "https://arbiscan.io/tx/" ++ txHash
  else if chainName = str "OP" then str "https://optimistic.etherscan.io/tx/" ++ txHash
  else if chainName = str "POLY" then str "https://polygonscan.com/tx/" ++ txHash
  else str "https://etherscan.io/tx/" ++ txHash

/-- Decimal rendering of a natural number. -/
def natToStr (n : Nat) : Str := (Nat.repr n).data

/-- Model of `ethers.formatEther`: wei to a decimal ether string with the
fractional part zero-padded to 18 places and trailing zeros trimmed (at
least one fractional digit is kept). -/
def formatEther (v : Nat) : Str :=
  let whole := natToStr (v / 10 ^ 18)
  let fracDigits := ((padStart 18 '0' (natToStr (v % 10 ^ 18))).reverse.dropWhile
    (· == '0')).reverse
  whole ++ str "." ++ (if fracDigits = [] then str "0" else fracDigits)

/-- The substring cascade of the `catch` branch of `attemptSingleMint`
(lines 228-240).  The `data="0x…"` regex extraction feeding
`decodeRevertReason` is not modelled: provider messages in this embedding
carry no embedded revert payload, so the cascade falls back to the fixed
reason strings / the 120-character message prefix, exactly as the source
does when the regex does not match. -/
def classifySendError (m : Str) : Str :=
  let msgLower := lower m
  if isSubstr msgLower (str "insufficient funds") ||
     isSubstr msgLower (str "not enough") then str "Insufficient ETH for gas"
  else if isSubstr msgLower (str "nonce") then str "Nonce conflict"
  else if isSubstr msgLower (str "gas") ||
     isSubstr msgLower (str "underpriced") then str "Gas too low"
  else if isSubstr msgLower (str "revert") then str "Transaction reverted"
  else m.take 120

/-- Tail of `attemptSingleMint` after the calldata has been constructed:
pre-check via gas estimation, then broadcast, then result recording (the
`store.recordMintAttempt` call is the `Eff.record` event). -/
def finishMint (env : Env) (chainName : Str) (signerAddress : Str)
    (keyName : Option Str) (txRequest : TxRequest) (transformEffs : List Eff) :
    Option (MintResult × List Eff) :=
  match env.estimateGas signerAddress txRequest with
  | some reason =>
    some ({ success := false, keyName := keyName, address := signerAddress,
            error := some reason, skippedPrecheck := true },
          transformEffs ++ [Eff.precheckCall, Eff.record false])
  | none =>
    match env.send signerAddress txRequest with
    | .ok txHash =>
      some ({ success := true, keyName := keyName, address := signerAddress,
              txHash := some txHash,
              explorerUrl := some (getExplorerUrl chainName txHash) },
            transformEffs ++ [Eff.precheckCall, Eff.broadcastCall, Eff.record true])
    | .error m =>
      some ({ success := false, keyName := keyName, address := signerAddress,
              error := some (classifySendError m) },
            transformEffs ++ [Eff.precheckCall, Eff.broadcastCall, Eff.record false])

/-- Embedding of `attemptSingleMint`.  The guards appear in source order: no
target address, the free-mint check, the self-copy check, then the calldata
transformation (the known-selector rewrite wins; the generic scan runs only
when no known selector matched and the sender's padded address occurs in the
parameter region — in the source this is the `addressReplaced` flag), then
pre-check and broadcast.  `none` propagates divergence of the generic
scan-and-replace loop. -/
def attemptSingleMintF (env : Env) (fuel : Nat) (chainName : Str)
    (originalTx : Tx) (signerAddress : Str) (keyName : Option Str) :
    Option (MintResult × List Eff) :=
  match originalTx.toAddr with
  | none =>
    some ({ success := false, keyName := keyName, address := signerAddress,
            error := some (str "No target address") }, [])
  | some toAddr =>
    if 0 < originalTx.value then
      some ({ success := false, keyName := keyName, address := signerAddress,
              error := some (str "Skipped paid mint (" ++
                formatEther originalTx.value ++ str " ETH)") }, [])
    else if lower originalTx.fromAddr = lower signerAddress then
      some ({ success := false, keyName := keyName, address := signerAddress,
              error := some (str "Self-copy skipped") }, [])
    else if needsAddressReplacement originalTx.data then
      finishMint env chainName signerAddress keyName
        { toAddr := toAddr,
          data := replaceRecipientInCalldata originalTx.data signerAddress,
          value := 0 }
        [Eff.transformKnown]
    else if calldataContainsAddress originalTx.data originalTx.fromAddr then
      match genericReplaceAddressF fuel originalTx.data originalTx.fromAddr
          signerAddress with
      | some (d, cnt) =>
        finishMint env chainName signerAddress keyName
          { toAddr := toAddr, data := d, value := 0 } [Eff.transformGeneric cnt]
      | none => none
    else
      finishMint env chainName signerAddress keyName
        { toAddr := toAddr, data := originalTx.data, value := 0 } []

/-- One slot of the `Promise.allSettled(keys.map(...))` fan-out: wallet
construction followed by `attemptSingleMint`; a rejected promise (wallet
construction threw) is mapped to the fallback result of
`attemptMintAllKeys` (`keys[i]?.name || null`, `keys[i]?.address || '???'`,
`r.reason?.message`). -/
def runKeyAttempt (env : Env) (fuel : Nat) (chainName : Str) (originalTx : Tx)
    (key : KeyRec) : Option (MintResult × List Eff) :=
  match env.derive key.privateKey with
  | .ok signerAddress =>
    attemptSingleMintF env fuel chainName originalTx signerAddress key.name
  | .error m =>
    some ({ success := false,
            keyName := match key.name with
                       | some nm => if nm = [] then none else some nm
                       | none => none,
            address := if key.address = [] then str "???" else key.address,
            error := some m }, [])

/-- Sequential collection of the per-key attempts (cross-key effect order is
not observable in the claims: only emptiness and per-key membership are). -/
def collectKeyAttempts (env : Env) (fuel : Nat) (chainName : Str)
    (originalTx : Tx) : List KeyRec → Option (List MintResult × List Eff)
  | [] => some ([], [])
  | k :: ks =>
    match runKeyAttempt env fuel chainName originalTx k with
    | none => none
    | some (r, effs1) =>
      match collectKeyAttempts env fuel chainName originalTx ks with
      | none => none
      | some (rs, effs2) => some (r :: rs, effs1 ++ effs2)

/-- Embedding of `attemptMintAllKeys`: empty result for contract-creation
transactions; the paid-mint guard (skip notification, one `Paid (…)`
failure per key, no attempts); otherwise the mint-detected notification,
the per-key fan-out, the bundled notification (sent only when the message
is non-empty, i.e. when there is at least one result), and the detached
confirmation wait for each success. -/
def attemptMintAllKeysF (env : Env) (fuel : Nat) (chainName : Str)
    (originalTx : Tx) (keys : List KeyRec) :
    Option (List MintResult × List Eff) :=
  match originalTx.toAddr with
  | none => some ([], [])
  | some _ =>
    if 0 < originalTx.value then
      some (keys.map fun k =>
        { success := false, keyName := k.name, address := k.address,
          error := some (str "Paid (" ++ formatEther originalTx.value ++
            str " ETH)") },
        [Eff.notify])
    else
      match collectKeyAttempts env fuel chainName originalTx keys with
      | none => none
      | some (mintResults, attemptEffs) =>
        some (mintResults,
          [Eff.notify] ++ attemptEffs ++
          (if mintResults.isEmpty then [] else [Eff.notify]) ++
          ((mintResults.filter (·.success)).filterMap (·.txHash)).map
            Eff.awaitReceipt)

/-- Default oracle fixture for concrete witnesses: pre-check passes,
broadcast returns a fixed hash, wallet construction returns a fixed
address. -/
def envDefault : Env where
  estimateGas := fun _ _ => none
  send := fun _ _ => .ok (str "0xbroadcast")
  derive := fun _ => .ok (str "0xderived")

/-- Oracle fixture for the C10 witness: the pre-check rejects every attempt,
and wallet construction throws exactly on the empty private key (the second
key below), exercising the rejected-promise branch. -/
def envThrowSecond : Env where
  estimateGas := fun _ _ => some (str "Not eligible")
  send := fun _ _ => .ok (str "0xbroadcast")
  derive := fun pk => if pk = [] then .error (str "invalid private key")
    else .ok pk

-- ─── Chain watcher: per-transaction processing and batching (monitor.ts) ───

/-- One subscriber record from the wallet map
(`{ userId, chatId, username }`). -/
structure Tracker where
  userId : Str
  chatId : Int
  username : Option Str
deriving DecidableEq

/-- JavaScript `Number.prototype.toString` for the chat id. -/
def intToStr (i : Int) : Str := (Int.repr i).data

/-- JavaScript `String.prototype.trim`. -/
def trimStr (s : Str) : Str :=
  ((s.dropWhile Char.isWhitespace).reverse.dropWhile Char.isWhitespace).reverse

/-- The admin test of `processBlock`:
`t.chatId.toString().trim() === ADMIN_ID || t.userId.toString().trim() === ADMIN_ID`
(`ADMIN_ID` is already trimmed at startup). -/
def isAdminTracker (adminId : Str) (t : Tracker) : Bool :=
  trimStr (intToStr t.chatId) == adminId || trimStr t.userId == adminId

/-- Completion-ordered schedule of the replay fan-out for one qualifying
transaction: a classifier invocation, the awaited admin
`attemptMintAllKeys` run, one awaited `Promise.allSettled` batch of
subscriber tasks (identified by user id), or an inter-batch sleep.  Each
event is emitted only when the corresponding awaited step has completed, so
list order is temporal order. -/
inductive Sched where
  | classify : Str → Sched
  | adminMint : Str → Sched
  | batch : List Str → Sched
  | wait : Nat → Sched
deriving DecidableEq

/-- Constant `BATCH_SIZE = 5`. -/
def BATCH_SIZE : Nat := 5

/-- Constant `BATCH_DELAY_MS = 200`. -/
def BATCH_DELAY_MS : Nat := 200

/-- Embedding of `processMintBatches`: slices of `BATCH_SIZE` tasks, each
batch awaited (`Promise.allSettled`), with a `sleep(BATCH_DELAY_MS)`
between consecutive batches (`if (i + BATCH_SIZE < tasks.length)`). -/
def processMintBatches : List Str → List Sched
  | [] => []
  | x :: xs =>
    Sched.batch ((x :: xs).take BATCH_SIZE) ::
      (if BATCH_SIZE < (x :: xs).length then
        Sched.wait BATCH_DELAY_MS :: processMintBatches ((x :: xs).drop BATCH_SIZE)
      else [])
termination_by l => l.length
decreasing_by
  simp [BATCH_SIZE, List.length_drop]
  omega

/-- Reference decomposition of a task list into consecutive groups of five
(the last group possibly shorter), used to state the batch structure. -/
def batchChunks : List Str → List (List Str)
  | [] => []
  | x :: xs => (x :: xs).take 5 :: batchChunks ((x :: xs).drop 5)
termination_by l => l.length
decreasing_by
  simp [List.length_drop]
  omega

/-- Embedding of the admin-priority fan-out of `processBlock` (lines
222-282): the admin tracker (resolved by `find`) runs first and is awaited;
every other tracker with at least one key becomes one task; the tasks run in
staggered batches. -/
def orchestrateReplay (adminId : Str) (trackers : List Tracker)
    (keysOf : Str → List KeyRec) : List Sched :=
  let adminTracker := if adminId = [] then none
    else trackers.find? (fun t => isAdminTracker adminId t)
  let otherTrackers := if adminId = [] then trackers
    else trackers.filter (fun t => ! isAdminTracker adminId t)
  let adminEvents := match adminTracker with
    | some a => if keysOf a.userId = [] then [] else [Sched.adminMint a.userId]
    | none => []
  let mintTasks := (otherTrackers.filter
    (fun t => ! (keysOf t.userId).isEmpty)).map (fun t => t.userId)
  adminEvents ++ processMintBatches mintTasks

/-- Per-chain watcher state: the ProcessedSet (`processedTxs`), in insertion
order. -/
structure WatchState where
  processedTxs : List Str
deriving DecidableEq

/-- Constant `MAX_PROCESSED_TXS = 5000`. -/
def MAX_PROCESSED_TXS : Nat := 5000

/-- Embedding of `cleanupProcessedTxs`: prune only when significantly over
the high-water mark, discarding the oldest entries down to
`MAX_PROCESSED_TXS`. -/
def cleanupProcessedTxs (st : WatchState) : WatchState :=
  if MAX_PROCESSED_TXS + 500 < st.processedTxs.length then
    { processedTxs :=
        st.processedTxs.drop (st.processedTxs.length - MAX_PROCESSED_TXS) }
  else st

/-- Embedding of the per-transaction body of `processBlock` (lines
197-283): sender lookup in the wallet map, the ProcessedSet test, the
missing-calldata / missing-target / classifier gates — each of which marks
the hash processed — and, on acceptance, the admin-priority fan-out. -/
def processTx (adminId : Str) (walletMap : Str → Option (List Tracker))
    (keysOf : Str → List KeyRec) (st : WatchState) (tx : Tx) :
    WatchState × List Sched :=
  match walletMap (lower tx.fromAddr) with
  | none => (st, [])
  | some trackers =>
    if tx.hash ∈ st.processedTxs then (st, [])
    else if tx.data = [] ∨ tx.data = str "0x" then
      ({ processedTxs := st.processedTxs ++ [tx.hash] }, [])
    else if tx.toAddr = none then
      ({ processedTxs := st.processedTxs ++ [tx.hash] }, [])
    else if ¬ isLikelyNFTMint tx.data then
      ({ processedTxs := st.processedTxs ++ [tx.hash] }, [Sched.classify tx.data])
    else
      ({ processedTxs := st.processedTxs ++ [tx.hash] },
        Sched.classify tx.data :: orchestrateReplay adminId trackers keysOf)

/-- Concrete tracker fixtures for the C8 witness: six plain subscribers and
one admin subscriber (user id 42) in the middle, all with one key. -/
def adminTrackerW : Tracker := { userId := str "42", chatId := 7, username := none }

/-- Tracker list for the C8 witness. -/
def trackersW : List Tracker :=
  [{ userId := str "u1", chatId := 1, username := none },
   adminTrackerW,
   { userId := str "u2", chatId := 2, username := none },
   { userId := str "u3", chatId := 3, username := none },
   { userId := str "u4", chatId := 4, username := none },
   { userId := str "u5", chatId := 5, username := none },
   { userId := str "u6", chatId := 6, username := none }]

/-- Key lookup for the C8 witness: every subscriber has one key. -/
def keysOfW : Str → List KeyRec := fun _ =>
  [{ privateKey := str "0xk", name := none, address := str "0xA",
     autoList := false }]

-- ─── Theorems ───

theorem char_toNat_ofNat (n : Nat) (h : Nat.isValidChar n) :
    (Char.ofNat n).toNat = n := by
  rw [Char.ofNat, dif_pos h]; rfl

theorem char_toLower_toLower (c : Char) : c.toLower.toLower = c.toLower := by
  unfold Char.toLower
  by_cases h : c.toNat ≥ 65 ∧ c.toNat ≤ 90
  · rw [if_pos h]
    have hv : Nat.isValidChar (c.toNat + 32) := Or.inl (by omega)
    have ht : (Char.ofNat (c.toNat + 32)).toNat = c.toNat + 32 :=
      char_toNat_ofNat _ hv
    rw [if_neg]
    omega
  · rw [if_neg h, if_neg h]

theorem lower_lower (s : Str) : lower (lower s) = lower s := by
  unfold lower
  rw [List.map_map]
  exact List.map_congr_left fun c _ => char_toLower_toLower c

/-- Claim C3: the classifier equals the reference definition for every
calldata string — empty / absent / `0x` calldata is rejected; the deny-list
is evaluated before the allow-list; otherwise the length heuristic accepts
below 200, rejects above 600, and accepts in between.  Both functions are
total, so a definite boolean is always returned. -/
theorem isLikelyNFTMint_eq_reference :
    ∀ txData : Str, isLikelyNFTMint txData = classifierReference txData := by
  intro d
  unfold isLikelyNFTMint classifierReference
  by_cases h1 : d = []
  · simp [h1]
  · by_cases h2 : d = str "0x"
    · simp [h1, h2]
    · simp only [h1, h2, or_self, if_false, or_false, false_or]
      split
      · rfl
      · split
        · rfl
        · split <;> split <;> first | rfl | omega | (split <;> first | rfl | omega)

/-- Claim C7: if the normalized padded encodings of the two addresses are
identical, `genericReplaceAddress` returns the original calldata unchanged
and a replacement count of zero, whatever the calldata (and however much
fuel the loop is given, since the loop is never entered). -/
theorem genericReplace_identity_guard
    (originalAddress newAddress : Str)
    (h : normalizePadded originalAddress = normalizePadded newAddress) :
    ∀ fuel calldata,
      genericReplaceAddressF fuel calldata originalAddress newAddress =
        some (calldata, 0) := by
  intro fuel calldata
  unfold genericReplaceAddressF
  simp [h]

/-- Witness for C7 at a concrete mixed-case / lowercase address pair. -/
theorem genericReplace_identity_guard_witness :
    normalizePadded (str "0xAbCdEf0123456789AbCdEf0123456789AbCdEf01") =
      normalizePadded (str "0xabcdef0123456789abcdef0123456789abcdef01") ∧
    genericReplaceAddressF 0 (str "0xdeadbeef")
      (str "0xAbCdEf0123456789AbCdEf0123456789AbCdEf01")
      (str "0xabcdef0123456789abcdef0123456789abcdef01") =
      some (str "0xdeadbeef", 0) :=
  ⟨by decide, genericReplace_identity_guard _ _ (by decide) 0 _⟩

theorem removeFirst_of_prefix (p x : Str) : removeFirst p (p ++ x) = x := by
  unfold removeFirst indexOfSub
  rw [if_pos (List.isPrefixOf_iff_prefix.mpr (List.prefix_append p x))]
  simp [List.drop_left']

theorem lower_append (a b : Str) : lower (a ++ b) = lower a ++ lower b :=
  List.map_append ..

theorem lower_str_0x : lower (str "0x") = str "0x" := by decide

theorem validAddressStr_parts (a : Str) (h : validAddressStr a = true) :
    a.take 2 = str "0x" ∧ a.length = 42 := by
  unfold validAddressStr at h
  simp only [Bool.and_eq_true, beq_iff_eq] at h
  exact ⟨h.1.1, h.1.2⟩

theorem normalizePadded_of_valid (a : Str) (h : validAddressStr a = true) :
    normalizePadded a = List.replicate 24 '0' ++ lower (a.drop 2) := by
  obtain ⟨h2, h42⟩ := validAddressStr_parts a h
  have hdecomp : a = str "0x" ++ a.drop 2 := by
    conv_lhs => rw [← List.take_append_drop 2 a]
    rw [h2]
  have hlow : lower a = str "0x" ++ lower (a.drop 2) := by
    conv_lhs => rw [hdecomp]
    rw [lower_append, lower_str_0x]
  have hlen : (lower (a.drop 2)).length = 40 := by
    simp [lower, List.length_drop, h42]
  unfold normalizePadded padStart
  rw [hlow, removeFirst_of_prefix, hlen]

theorem normalizePadded_length_of_valid (a : Str) (h : validAddressStr a = true) :
    (normalizePadded a).length = 64 := by
  obtain ⟨_, h42⟩ := validAddressStr_parts a h
  rw [normalizePadded_of_valid a h]
  simp [lower, List.length_drop, h42]

/-- Claim C5: for the SeaDrop-family selectors (`mintSigned` `0x4b61cd6f`,
`mintAllowList` `0x2e69ed7f` / `0x6ab93230`), when the parameter region is at
least 192 hex characters long, only the third 32-byte slot (characters
128-191 of the parameter region) is rewritten, to the zero-left-padded
lowercase replacement address; the selector, slots 0 and 1, and the entire
byte stream after character 191 are preserved verbatim.  When the parameter
region is shorter than 192 characters the calldata is returned unchanged. -/
theorem seadrop_frame_property (data recip : Str)
    (hsel : data.take 10 = str "0x4b61cd6f" ∨ data.take 10 = str "0x2e69ed7f" ∨
            data.take 10 = str "0x6ab93230")
    (hrec : validAddressStr recip = true) :
    (192 ≤ (data.drop 10).length →
      (replaceRecipientInCalldata data recip).take 10 = data.take 10 ∧
      ((replaceRecipientInCalldata data recip).drop 10).take 128 =
        (data.drop 10).take 128 ∧
      (((replaceRecipientInCalldata data recip).drop 10).drop 128).take 64 =
        List.replicate 24 '0' ++ lower (recip.drop 2) ∧
      ((replaceRecipientInCalldata data recip).drop 10).drop 192 =
        (data.drop 10).drop 192) ∧
    ((data.drop 10).length < 192 → replaceRecipientInCalldata data recip = data) := by
  have hout : replaceRecipientInCalldata data recip =
      if 192 ≤ (data.drop 10).length then
        data.take 10 ++ ((data.drop 10).take 64 ++
          ((((data.drop 10).drop 64).take 64) ++
            (normalizePadded recip ++ (data.drop 10).drop 192)))
      else data := by
    unfold replaceRecipientInCalldata normalizePadded
    rcases hsel with h | h | h <;> rw [h]
    · rw [if_neg (by decide), if_neg (by decide), if_neg (by decide), if_pos rfl]
      split <;> simp [List.append_assoc]
    · rw [if_neg (by decide), if_neg (by decide), if_neg (by decide),
        if_neg (by decide), if_pos (Or.inl rfl)]
      split <;> simp [List.append_assoc]
    · rw [if_neg (by decide), if_neg (by decide), if_neg (by decide),
        if_neg (by decide), if_pos (Or.inr rfl)]
      split <;> simp [List.append_assoc]
  constructor
  · intro hlen
    rw [hout, if_pos hlen]
    have hsig10 : (data.take 10).length = 10 := by
      rcases hsel with h | h | h <;> rw [h] <;> decide
    have hA : ((data.drop 10).take 64).length = 64 := by
      rw [List.length_take]; omega
    have hB : (((data.drop 10).drop 64).take 64).length = 64 := by
      rw [List.length_take, List.length_drop]; omega
    have hP : (normalizePadded recip).length = 64 :=
      normalizePadded_length_of_valid recip hrec
    have hdropsig :
        (data.take 10 ++ ((data.drop 10).take 64 ++
          ((((data.drop 10).drop 64).take 64) ++
            (normalizePadded recip ++ (data.drop 10).drop 192)))).drop 10 =
        (data.drop 10).take 64 ++ ((((data.drop 10).drop 64).take 64) ++
          (normalizePadded recip ++ (data.drop 10).drop 192)) :=
      List.drop_left' hsig10
    refine ⟨List.take_left' hsig10, ?_, ?_, ?_⟩
    · rw [hdropsig, ← List.append_assoc]
      have h128 : ((data.drop 10).take 64 ++
          (((data.drop 10).drop 64).take 64)).length = 128 := by
        rw [List.length_append, hA, hB]
      rw [List.take_left' h128, show (128 : Nat) = 64 + 64 from rfl, List.take_add]
    · rw [hdropsig, ← List.append_assoc]
      have h128 : ((data.drop 10).take 64 ++
          (((data.drop 10).drop 64).take 64)).length = 128 := by
        rw [List.length_append, hA, hB]
      rw [List.drop_left' h128, List.take_left' hP,
        normalizePadded_of_valid recip hrec]
    · rw [hdropsig, ← List.append_assoc, ← List.append_assoc]
      have h192 : (((data.drop 10).take 64 ++
          (((data.drop 10).drop 64).take 64)) ++ normalizePadded recip).length = 192 := by
        rw [List.length_append, List.length_append, hA, hB, hP]
      rw [List.drop_left' h192]
  · intro hlen
    rw [hout, if_neg (by omega)]

/-- Witness for C5: a concrete `mintSigned` calldata with a 192-character
parameter region and a concrete checksummed recipient. -/
theorem seadrop_frame_property_witness :
    ((str "0x4b61cd6f" ++ List.replicate 192 'a').take 10 = str "0x4b61cd6f" ∨
     (str "0x4b61cd6f" ++ List.replicate 192 'a').take 10 = str "0x2e69ed7f" ∨
     (str "0x4b61cd6f" ++ List.replicate 192 'a').take 10 = str "0x6ab93230") ∧
    validAddressStr (str "0xAbCdEf0123456789AbCdEf0123456789AbCdEf01") = true ∧
    (192 ≤ ((str "0x4b61cd6f" ++ List.replicate 192 'a').drop 10).length →
      (replaceRecipientInCalldata (str "0x4b61cd6f" ++ List.replicate 192 'a')
        (str "0xAbCdEf0123456789AbCdEf0123456789AbCdEf01")).take 10 =
        (str "0x4b61cd6f" ++ List.replicate 192 'a').take 10 ∧
      ((replaceRecipientInCalldata (str "0x4b61cd6f" ++ List.replicate 192 'a')
        (str "0xAbCdEf0123456789AbCdEf0123456789AbCdEf01")).drop 10).take 128 =
        ((str "0x4b61cd6f" ++ List.replicate 192 'a').drop 10).take 128 ∧
      (((replaceRecipientInCalldata (str "0x4b61cd6f" ++ List.replicate 192 'a')
        (str "0xAbCdEf0123456789AbCdEf0123456789AbCdEf01")).drop 10).drop 128).take 64 =
        List.replicate 24 '0' ++
          lower ((str "0xAbCdEf0123456789AbCdEf0123456789AbCdEf01").drop 2) ∧
      ((replaceRecipientInCalldata (str "0x4b61cd6f" ++ List.replicate 192 'a')
        (str "0xAbCdEf0123456789AbCdEf0123456789AbCdEf01")).drop 10).drop 192 =
        ((str "0x4b61cd6f" ++ List.replicate 192 'a').drop 10).drop 192) :=
  ⟨Or.inl (by decide), by decide,
   (seadrop_frame_property _ _ (Or.inl (by decide)) (by decide)).1⟩

theorem hexVal_lt (c : Char) : hexVal c < 16 := by
  unfold hexVal
  split <;> [omega; split <;> [omega; split <;> omega]]

theorem parseHex_lt (s : Str) : parseHex s < 16 ^ s.length := by
  induction s with
  | nil => simp [parseHex]
  | cons c t ih =>
    have h1 : hexVal c ≤ 15 := Nat.lt_succ_iff.mp (hexVal_lt c)
    have hp : 0 < 16 ^ t.length := Nat.pos_pow_of_pos _ (by norm_num)
    have : hexVal c * 16 ^ t.length + parseHex t < 16 * 16 ^ t.length := by
      nlinarith
    simpa [parseHex, List.length_cons, pow_succ, Nat.mul_comm] using this

theorem isHexChar_hexDigit (m : Nat) (h : m < 16) : isHexChar (hexDigit m) = true := by
  unfold isHexChar hexDigit
  split
  next hm =>
    rw [char_toNat_ofNat _ (Or.inl (by omega))]
    simp only [decide_eq_true_eq]
    omega
  next hm =>
    rw [char_toNat_ofNat _ (Or.inl (by omega))]
    simp only [decide_eq_true_eq]
    omega

theorem hexVal_hexDigit (m : Nat) (h : m < 16) : hexVal (hexDigit m) = m := by
  unfold hexVal hexDigit
  split
  next hm =>
    rw [char_toNat_ofNat _ (Or.inl (by omega))]
    split <;> omega
  next hm =>
    rw [char_toNat_ofNat _ (Or.inl (by omega))]
    split
    next h2 => omega
    next h2 => split <;> omega

theorem toLower_hexDigit (m : Nat) (h : m < 16) :
    (hexDigit m).toLower = hexDigit m := by
  unfold Char.toLower hexDigit
  split
  next hm =>
    rw [if_neg]
    rw [char_toNat_ofNat _ (Or.inl (by omega))]
    omega
  next hm =>
    rw [if_neg]
    rw [char_toNat_ofNat _ (Or.inl (by omega))]
    omega

theorem hexDigit_hexVal (c : Char) (hhex : isHexChar c = true)
    (hlow : c.toLower = c) : hexDigit (hexVal c) = c := by
  unfold isHexChar at hhex
  rw [decide_eq_true_eq] at hhex
  rcases hhex with h | h | h
  · have hv : hexVal c = c.toNat - 48 := by
      unfold hexVal
      rw [if_pos h]
    unfold hexDigit
    rw [hv, if_pos (by omega), show 48 + (c.toNat - 48) = c.toNat by omega]
    exact Char.ofNat_toNat c
  · have hv : hexVal c = c.toNat - 87 := by
      unfold hexVal
      rw [if_neg (by omega), if_pos h]
    unfold hexDigit
    rw [hv, if_neg (by omega), show 87 + (c.toNat - 87) = c.toNat by omega]
    exact Char.ofNat_toNat c
  · exfalso
    have : c.toLower.toNat = c.toNat + 32 := by
      unfold Char.toLower
      rw [if_pos (by omega)]
      exact char_toNat_ofNat _ (Or.inl (by omega))
    rw [hlow] at this
    omega

theorem isHexChar_toLower (c : Char) (h : isHexChar c = true) :
    isHexChar c.toLower = true := by
  unfold isHexChar at h ⊢
  rw [decide_eq_true_eq] at h ⊢
  unfold Char.toLower
  by_cases hc : c.toNat ≥ 65 ∧ c.toNat ≤ 90
  · rw [if_pos hc, char_toNat_ofNat _ (Or.inl (by omega))]
    omega
  · rw [if_neg hc]
    omega

theorem length_toHexN (n v : Nat) : (toHexN n v).length = n := by
  induction n generalizing v with
  | zero => rfl
  | succ n ih => simp [toHexN, ih]

theorem allHex_toHexN (n v : Nat) : allHex (toHexN n v) = true := by
  induction n generalizing v with
  | zero => rfl
  | succ n ih =>
    unfold toHexN allHex
    rw [List.all_append]
    unfold allHex at ih
    rw [ih]
    simp [isHexChar_hexDigit _ (Nat.mod_lt _ (by norm_num))]

theorem lower_toHexN (n v : Nat) : lower (toHexN n v) = toHexN n v := by
  induction n generalizing v with
  | zero => rfl
  | succ n ih =>
    unfold toHexN lower
    rw [List.map_append]
    unfold lower at ih
    rw [ih]
    simp [toLower_hexDigit _ (Nat.mod_lt _ (by norm_num))]

theorem parseHex_append_singleton (t : Str) (c : Char) :
    parseHex (t ++ [c]) = 16 * parseHex t + hexVal c := by
  induction t with
  | nil => simp [parseHex]
  | cons c' t ih =>
    simp only [List.cons_append, parseHex, ih, List.append_eq,
      List.length_append, List.length_singleton]
    ring

theorem parseHex_toHexN (n v : Nat) (h : v < 16 ^ n) :
    parseHex (toHexN n v) = v := by
  induction n generalizing v with
  | zero =>
    simp [toHexN, parseHex]
    omega
  | succ n ih =>
    unfold toHexN
    rw [parseHex_append_singleton, ih (v / 16) (by
      rw [pow_succ] at h
      exact Nat.div_lt_of_lt_mul (by omega)),
      hexVal_hexDigit _ (Nat.mod_lt _ (by norm_num))]
    omega

theorem toHexN_parseHex (w : Str) (hhex : allHex w = true) (hlow : lower w = w) :
    toHexN w.length (parseHex w) = w := by
  induction w using List.reverseRecOn with
  | nil => rfl
  | append_singleton t c ih =>
    unfold allHex at hhex
    rw [List.all_append] at hhex
    have hct : isHexChar c = true := by
      have := (Bool.and_eq_true _ _).mp hhex
      simpa [List.all_eq_true] using this.2
    have hat : allHex t = true := ((Bool.and_eq_true _ _).mp hhex).1
    unfold lower at hlow
    rw [List.map_append] at hlow
    obtain ⟨hlt, hlc⟩ := List.append_inj hlow (by simp)
    have hlc' : c.toLower = c := by simpa using hlc
    rw [List.length_append, List.length_singleton]
    unfold toHexN
    rw [parseHex_append_singleton]
    have hv : hexVal c < 16 := hexVal_lt c
    rw [show (16 * parseHex t + hexVal c) / 16 = parseHex t by omega,
      show (16 * parseHex t + hexVal c) % 16 = hexVal c by omega,
      ih hat hlt, hexDigit_hexVal c hct hlc']

theorem allHex_take (s : Str) (n : Nat) (h : allHex s = true) :
    allHex (s.take n) = true := by
  unfold allHex at *
  rw [List.all_eq_true] at *
  exact fun c hc => h c (List.mem_of_mem_take hc)

theorem allHex_drop (s : Str) (n : Nat) (h : allHex s = true) :
    allHex (s.drop n) = true := by
  unfold allHex at *
  rw [List.all_eq_true] at *
  exact fun c hc => h c (List.mem_of_mem_drop hc)

theorem allHex_lower (s : Str) (h : allHex s = true) : allHex (lower s) = true := by
  unfold allHex lower at *
  rw [List.all_map, List.all_eq_true] at *
  exact fun c hc => isHexChar_toLower c (h c hc)

theorem lower_take (s : Str) (n : Nat) : lower (s.take n) = (lower s).take n :=
  List.map_take ..

theorem lower_drop (s : Str) (n : Nat) : lower (s.drop n) = (lower s).drop n :=
  List.map_drop ..

theorem validAddressStr_allHex (a : Str) (h : validAddressStr a = true) :
    allHex (a.drop 2) = true := by
  unfold validAddressStr at h
  simp only [Bool.and_eq_true, beq_iff_eq] at h
  exact h.2

theorem encodeAddressWord_of_valid (a : Str) (h : validAddressStr a = true) :
    encodeAddressWord a = List.replicate 24 '0' ++ lower (a.drop 2) := by
  obtain ⟨_, h42⟩ := validAddressStr_parts a h
  unfold encodeAddressWord padStart
  rw [show (lower (a.drop 2)).length = 40 by simp [lower, h42]]

/-- Claim C4: for the `mint(address,uint256)` selector `0x40c10f19`, whenever
the original parameters decode (well-formed calldata), re-decoding the output
of `replaceRecipientInCalldata` yields exactly the supplied replacement
address (in lowercase normal form) in the address slot and the original
uint256 value, and the selector and the uint256 parameter word are
byte-identical to the original; whenever decoding fails the original
calldata is returned unmodified. -/
theorem mint_addr_uint_roundtrip (params recip addr : Str) (v : Nat)
    (hdec : decodeAddressUint256 params = some (addr, v))
    (hrec : validAddressStr recip = true)
    (hlow : lower params = params) :
    ((replaceRecipientInCalldata (str "0x40c10f19" ++ params) recip).take 10 =
       str "0x40c10f19" ∧
     decodeAddressUint256
         ((replaceRecipientInCalldata (str "0x40c10f19" ++ params) recip).drop 10) =
       some (str "0x" ++ lower (recip.drop 2), v) ∧
     (((replaceRecipientInCalldata (str "0x40c10f19" ++ params) recip).drop 10).drop 64).take 64 =
       (params.drop 64).take 64) ∧
    (∀ q r2, decodeAddressUint256 q = none →
       replaceRecipientInCalldata (str "0x40c10f19" ++ q) r2 = str "0x40c10f19" ++ q) := by
  have hred : ∀ q r2, replaceRecipientInCalldata (str "0x40c10f19" ++ q) r2 =
      (match decodeAddressUint256 q with
       | some (_, tokenId) =>
         (match encodeAddressUint256 r2 tokenId with
          | some np => str "0x40c10f19" ++ np
          | none => str "0x40c10f19" ++ q)
       | none => str "0x40c10f19" ++ q) := by
    intro q r2
    unfold replaceRecipientInCalldata
    rw [List.take_left' (by decide), List.drop_left' (by decide), if_pos rfl]
  refine ⟨?_, fun q r2 hnone => by rw [hred, hnone]⟩
  have hdec0 := hdec
  unfold decodeAddressUint256 at hdec0
  split at hdec0
  case isFalse => exact absurd hdec0 (by simp)
  case isTrue hcond =>
  obtain ⟨hmod, hhex, hlen, htop⟩ := hcond
  have hvdef : v = parseHex ((params.drop 64).take 64) := by
    injection hdec0 with h1
    injection h1 with _ h2
    exact h2.symm
  have hw64 : ((params.drop 64).take 64).length = 64 := by
    rw [List.length_take, List.length_drop]
    omega
  have hvlt : v < 16 ^ 64 := by
    rw [hvdef]
    have h := parseHex_lt ((params.drop 64).take 64)
    rwa [hw64] at h
  have henc : encodeAddressUint256 recip v =
      some (encodeAddressWord recip ++ toHex64 v) := by
    unfold encodeAddressUint256
    rw [if_pos ⟨hrec, hvlt⟩]
  have hout : replaceRecipientInCalldata (str "0x40c10f19" ++ params) recip =
      str "0x40c10f19" ++ (encodeAddressWord recip ++ toHex64 v) := by
    rw [hred]
    simp only [hdec, henc]
  obtain ⟨_, h42⟩ := validAddressStr_parts recip hrec
  have hE : encodeAddressWord recip = List.replicate 24 '0' ++ lower (recip.drop 2) :=
    encodeAddressWord_of_valid recip hrec
  have hL40 : (lower (recip.drop 2)).length = 40 := by
    simp [lower, h42]
  have hElen : (encodeAddressWord recip).length = 64 := by
    rw [hE, List.length_append, List.length_replicate, hL40]
  have hTlen : (toHex64 v).length = 64 := length_toHexN 64 v
  have hdrop10 : (replaceRecipientInCalldata (str "0x40c10f19" ++ params) recip).drop 10 =
      encodeAddressWord recip ++ toHex64 v := by
    rw [hout, List.drop_left' (by decide)]
  refine ⟨by rw [hout, List.take_left' (by decide)], ?_, ?_⟩
  · rw [hdrop10]
    unfold decodeAddressUint256
    rw [if_pos ?side]
    case side =>
      refine ⟨?_, ?_, ?_, ?_⟩
      · rw [List.length_append, hElen, hTlen]
      · unfold allHex
        rw [List.all_append]
        refine (Bool.and_eq_true _ _).mpr ⟨?_, ?_⟩
        · rw [hE]
          unfold allHex at *
          rw [List.all_append]
          refine (Bool.and_eq_true _ _).mpr ⟨by decide, ?_⟩
          exact allHex_lower _ (validAddressStr_allHex recip hrec)
        · exact allHex_toHexN 64 v
      · rw [List.length_append, hElen, hTlen]
      · rw [hE, List.append_assoc,
          List.take_left' (List.length_replicate 24 '0')]
        simp [List.all_eq_true, List.mem_replicate]
    · have e1 : ((encodeAddressWord recip ++ toHex64 v).take 64).drop 24 =
          lower (recip.drop 2) := by
        rw [List.take_left' hElen, hE,
          List.drop_left' (List.length_replicate 24 '0')]
      have e2 : ((encodeAddressWord recip ++ toHex64 v).drop 64).take 64 =
          toHex64 v := by
        rw [List.drop_left' hElen, ← hTlen, List.take_length]
      rw [e1, e2, lower_lower]
      unfold toHex64
      rw [parseHex_toHexN 64 v hvlt]
  · have e3 : ((replaceRecipientInCalldata (str "0x40c10f19" ++ params) recip).drop 10).drop 64 =
        toHex64 v := by
      rw [hdrop10, List.drop_left' hElen]
    have htk : (toHex64 v).take 64 = toHex64 v := by
      rw [← hTlen]
      exact List.take_length _
    rw [e3, htk]
    show toHexN 64 v = (params.drop 64).take 64
    rw [hvdef]
    have hwhex : allHex ((params.drop 64).take 64) = true :=
      allHex_take _ _ (allHex_drop _ _ hhex)
    have hwlow : lower ((params.drop 64).take 64) = (params.drop 64).take 64 := by
      rw [lower_take, lower_drop, hlow]
    have h4 := toHexN_parseHex ((params.drop 64).take 64) hwhex hwlow
    rw [hw64] at h4
    exact h4

set_option maxRecDepth 10000 in
/-- Witness for C4: concrete `mint(address,uint256)` parameters (recipient
word `0x…aa…a`, token id 7) and a concrete checksummed replacement address. -/
theorem mint_addr_uint_roundtrip_witness :
    decodeAddressUint256
        (List.replicate 24 '0' ++ List.replicate 40 'a' ++
         List.replicate 63 '0' ++ ['7']) =
      some (str "0x" ++ List.replicate 40 'a', 7) ∧
    validAddressStr (str "0xAbCdEf0123456789AbCdEf0123456789AbCdEf01") = true ∧
    lower (List.replicate 24 '0' ++ List.replicate 40 'a' ++
           List.replicate 63 '0' ++ ['7']) =
      List.replicate 24 '0' ++ List.replicate 40 'a' ++
        List.replicate 63 '0' ++ ['7'] ∧
    decodeAddressUint256
        ((replaceRecipientInCalldata
            (str "0x40c10f19" ++
              (List.replicate 24 '0' ++ List.replicate 40 'a' ++
               List.replicate 63 '0' ++ ['7']))
            (str "0xAbCdEf0123456789AbCdEf0123456789AbCdEf01")).drop 10) =
      some (str "0x" ++
              lower ((str "0xAbCdEf0123456789AbCdEf0123456789AbCdEf01").drop 2),
            7) :=
  ⟨by decide, by decide, by decide,
   (mint_addr_uint_roundtrip
      (List.replicate 24 '0' ++ List.replicate 40 'a' ++
       List.replicate 63 '0' ++ ['7'])
      (str "0xAbCdEf0123456789AbCdEf0123456789AbCdEf01")
      (str "0x" ++ List.replicate 40 'a') 7
      (by decide) (by decide) (by decide)).1.2.1⟩

theorem phi_lt (pd : Char) (s : Str) : phi pd s < 2 ^ s.length := by
  induction s with
  | nil => simp [phi]
  | cons c t ih =>
    have hb : chBit pd c ≤ 1 := by
      unfold chBit
      split <;> omega
    have hp : 0 < 2 ^ t.length := Nat.pos_pow_of_pos _ (by norm_num)
    simp only [List.length_cons]
    calc phi pd (c :: t) = chBit pd c * 2 ^ t.length + phi pd t := rfl
    _ < chBit pd c * 2 ^ t.length + 2 ^ t.length := by omega
    _ ≤ 1 * 2 ^ t.length + 2 ^ t.length := by
        exact Nat.add_le_add_right (Nat.mul_le_mul_right _ hb) _
    _ = 2 ^ (t.length + 1) := by ring

theorem phi_append (pd : Char) (a b : Str) :
    phi pd (a ++ b) = phi pd a * 2 ^ b.length + phi pd b := by
  induction a with
  | nil => simp [phi]
  | cons c t ih =>
    simp only [List.cons_append, phi, ih, List.append_eq, List.length_append]
    ring

theorem phi_congr_lower (pd : Char) (a b : Str)
    (h : a.map Char.toLower = b.map Char.toLower) : phi pd a = phi pd b := by
  induction a generalizing b with
  | nil =>
    cases b with
    | nil => rfl
    | cons c t => simp at h
  | cons c t ih =>
    cases b with
    | nil => simp at h
    | cons c' t' =>
      simp only [List.map_cons, List.cons.injEq] at h
      obtain ⟨h1, h2⟩ := h
      have hlen : t.length = t'.length := by
        have := congrArg List.length h2
        simpa using this
      simp only [phi]
      rw [ih t' h2, hlen]
      congr 1
      unfold chBit
      rw [h1]

theorem map_toLower_fixed : ∀ s : Str, lower s = s → ∀ c ∈ s, c.toLower = c := by
  intro s
  induction s with
  | nil => intro _ c hc; cases hc
  | cons c t ih =>
    intro h d hd
    unfold lower at h
    simp only [List.map_cons, List.cons.injEq] at h
    rcases List.mem_cons.mp hd with rfl | hdt
    · exact h.1
    · exact ih h.2 d hdt

theorem exists_first_diff : ∀ P N : Str, P.length = N.length → P ≠ N →
    ∃ C p n P2 N2, P = C ++ p :: P2 ∧ N = C ++ n :: N2 ∧ p ≠ n ∧
      P2.length = N2.length := by
  intro P
  induction P with
  | nil =>
    intro N hlen hne
    cases N with
    | nil => exact absurd rfl hne
    | cons c t => simp at hlen
  | cons c t ih =>
    intro N hlen hne
    cases N with
    | nil => simp at hlen
    | cons c' t' =>
      by_cases hc : c = c'
      · subst hc
        have hne' : t ≠ t' := fun h => hne (by rw [h])
        have hlen' : t.length = t'.length := by simpa using hlen
        obtain ⟨C, p, n, P2, N2, h1, h2, h3, h4⟩ := ih t' hlen' hne'
        exact ⟨c :: C, p, n, P2, N2, by simp [h1], by simp [h2], h3, h4⟩
      · exact ⟨[], c, c', t, t', rfl, rfl, hc, by simpa using hlen⟩

theorem phi_first_diff_lt (C P2 N2 : Str) (p n : Char) (hpn : p ≠ n)
    (hlen2 : P2.length = N2.length)
    (hp : p.toLower = p) (hn : n.toLower = n) :
    phi p (C ++ n :: N2) < phi p (C ++ p :: P2) := by
  rw [phi_append, phi_append]
  simp only [List.length_cons, hlen2]
  apply Nat.add_lt_add_left
  have hbp : chBit p p = 1 := by
    unfold chBit
    rw [hp, if_pos rfl]
  have hbn : chBit p n = 0 := by
    unfold chBit
    rw [hn, if_neg (fun h => hpn h.symm)]
  simp only [phi, hbp, hbn, Nat.zero_mul, Nat.one_mul, Nat.zero_add, hlen2]
  have h2 := phi_lt p N2
  omega

theorem indexOfSub_some : ∀ (s pat : Str) (i : Nat), indexOfSub s pat = some i →
    pat.isPrefixOf (s.drop i) = true ∧ i + pat.length ≤ s.length := by
  intro s
  induction s with
  | nil =>
    intro pat i h
    unfold indexOfSub at h
    split at h
    · next hp =>
      injection h with h'
      subst h'
      refine ⟨hp, ?_⟩
      have := (List.isPrefixOf_iff_prefix.mp hp).length_le
      simpa using this
    · simp at h
  | cons c t ih =>
    intro pat i h
    unfold indexOfSub at h
    split at h
    · next hp =>
      injection h with h'
      subst h'
      refine ⟨hp, ?_⟩
      have := (List.isPrefixOf_iff_prefix.mp hp).length_le
      simpa using this
    · next hp =>
      rw [Option.map_eq_some'] at h
      obtain ⟨j, hj, hij⟩ := h
      obtain ⟨h1, h2⟩ := ih pat j hj
      subst hij
      refine ⟨by simpa using h1, ?_⟩
      simp only [List.length_cons]
      omega

theorem phi_replace_lt (pd : Char) (P N params : Str) (idx : Nat)
    (hfind : indexOfSub (lower params) P = some idx)
    (hlen : P.length = N.length) (hPlow : lower P = P)
    (hPN : phi pd N < phi pd P) :
    phi pd (params.take idx ++ N ++ params.drop (idx + P.length)) <
      phi pd params := by
  obtain ⟨hpre, hle⟩ := indexOfSub_some (lower params) P idx hfind
  have hM : lower ((params.drop idx).take P.length) = P := by
    obtain ⟨t, ht⟩ := List.isPrefixOf_iff_prefix.mp hpre
    calc lower ((params.drop idx).take P.length)
        = (lower (params.drop idx)).take P.length := lower_take ..
    _ = ((lower params).drop idx).take P.length := by rw [lower_drop]
    _ = P := by rw [← ht, List.take_left]
  have hMlen : ((params.drop idx).take P.length).length = P.length := by
    have := congrArg List.length hM
    simpa [lower] using this
  have hsplit : params =
      params.take idx ++ ((params.drop idx).take P.length ++
        params.drop (idx + P.length)) := by
    conv_lhs => rw [← List.take_append_drop idx params]
    congr 1
    rw [← List.drop_drop, List.take_append_drop]
  have hPhiP := congrArg (phi pd) hsplit
  rw [hPhiP, List.append_assoc]
  rw [phi_append, phi_append, phi_append, phi_append]
  have hphiM : phi pd ((params.drop idx).take P.length) = phi pd P :=
    phi_congr_lower pd _ P (by
      have h1 : ((params.drop idx).take P.length).map Char.toLower = P := hM
      have h2 : P.map Char.toLower = P := hPlow
      rw [h1, h2])
  have hzpos : 0 < 2 ^ (params.drop (idx + P.length)).length :=
    Nat.pos_pow_of_pos _ (by norm_num)
  have hmid : phi pd N * 2 ^ (params.drop (idx + P.length)).length <
      phi pd ((params.drop idx).take P.length) *
        2 ^ (params.drop (idx + P.length)).length := by
    rw [hphiM]
    exact Nat.mul_lt_mul_of_pos_right hPN hzpos
  have hlenN : (N.length : Nat) = ((params.drop idx).take P.length).length := by
    omega
  rw [List.length_append, List.length_append, hlenN]
  linarith

theorem replaceAllLoop_term (P N : Str) (pd : Char)
    (hPN : phi pd N < phi pd P) (hlen : P.length = N.length)
    (hPlow : lower P = P) :
    ∀ fuel params count, phi pd params < fuel →
      (replaceAllLoop fuel P N params count).isSome = true := by
  intro fuel
  induction fuel with
  | zero => intro params count h; omega
  | succ fuel ih =>
    intro params count h
    unfold replaceAllLoop
    cases hidx : indexOfSub (lower params) P with
    | none => rfl
    | some idx =>
      apply ih
      have hdec := phi_replace_lt pd P N params idx hidx hlen hPlow hPN
      omega

theorem lower_removeFirst (pat s : Str) (hs : lower s = s) :
    lower (removeFirst pat s) = removeFirst pat s := by
  unfold removeFirst
  cases h : indexOfSub s pat with
  | none => exact hs
  | some i => rw [lower_append, lower_take, lower_drop, hs]

theorem lower_padStart_zero (n : Nat) (s : Str) (hs : lower s = s) :
    lower (padStart n '0' s) = padStart n '0' s := by
  unfold padStart
  rw [lower_append, hs]
  have h0 : '0'.toLower = '0' := by decide
  unfold lower
  rw [List.map_replicate, h0]

theorem lower_normalizePadded (x : Str) :
    lower (normalizePadded x) = normalizePadded x := by
  unfold normalizePadded
  exact lower_padStart_zero _ _ (lower_removeFirst _ _ (lower_lower x))

/-- Claim C9 (amended): `genericReplaceAddress` terminates whenever the two
normalized padded encodings have the same length — in particular for every
pair of genuine 40-hex-digit addresses, whose encodings are both exactly 64
characters — even when a replacement creates a new overlapping occurrence of
the old pattern.  (With encodings of unequal length the loop can grow the
parameter string forever; see the counterexample.) -/
theorem genericReplace_terminates_eq_length (calldata a b : Str)
    (hlen : (normalizePadded a).length = (normalizePadded b).length) :
    ∃ fuel res, genericReplaceAddressF fuel calldata a b = some res := by
  by_cases heq : normalizePadded a = normalizePadded b
  · refine ⟨0, (calldata, 0), ?_⟩
    unfold genericReplaceAddressF
    simp [heq]
  · obtain ⟨C, p, n, P2, N2, h1, h2, h3, h4⟩ :=
      exists_first_diff (normalizePadded a) (normalizePadded b) hlen heq
    have hPlow := lower_normalizePadded a
    have hNlow := lower_normalizePadded b
    have hp : p.toLower = p :=
      map_toLower_fixed _ hPlow p (by rw [h1]; simp)
    have hn : n.toLower = n :=
      map_toLower_fixed _ hNlow n (by rw [h2]; simp)
    have hPN : phi p (normalizePadded b) < phi p (normalizePadded a) := by
      rw [h1, h2]
      exact phi_first_diff_lt C P2 N2 p n h3 h4 hp hn
    have hterm := replaceAllLoop_term (normalizePadded a) (normalizePadded b) p
      hPN hlen hPlow (phi p (calldata.drop 10) + 1) (calldata.drop 10) 0
      (by omega)
    rw [Option.isSome_iff_exists] at hterm
    obtain ⟨⟨pr, cnt⟩, hres⟩ := hterm
    refine ⟨phi p (calldata.drop 10) + 1, (calldata.take 10 ++ pr, cnt), ?_⟩
    unfold genericReplaceAddressF
    rw [if_neg heq]
    simp only [hres]

/-- Witness for the amended C9 at two concrete distinct genuine addresses. -/
theorem genericReplace_terminates_eq_length_witness :
    (normalizePadded (str "0xAbCdEf0123456789AbCdEf0123456789AbCdEf01")).length =
      (normalizePadded (str "0x1111111111111111111111111111111111111111")).length ∧
    ∃ fuel res, genericReplaceAddressF fuel
      (str "0x40c10f19" ++ List.replicate 128 '0')
      (str "0xAbCdEf0123456789AbCdEf0123456789AbCdEf01")
      (str "0x1111111111111111111111111111111111111111") = some res :=
  ⟨by decide,
   genericReplace_terminates_eq_length _ _ _ (by decide)⟩

theorem replaceAllLoop_diverges :
    ∀ fuel m count, 64 ≤ m →
      replaceAllLoop fuel (List.replicate 64 'b') (List.replicate 70 'b')
        (List.replicate m 'b') count = none := by
  intro fuel
  induction fuel with
  | zero => intro m count _; rfl
  | succ fuel ih =>
    intro m count hm
    unfold replaceAllLoop
    have hlow : lower (List.replicate m 'b') = List.replicate m 'b' := by
      unfold lower
      rw [List.map_replicate]
      have : 'b'.toLower = 'b' := by decide
      rw [this]
    have hpre : (List.replicate 64 'b').isPrefixOf (List.replicate m 'b') = true := by
      apply List.isPrefixOf_iff_prefix.mpr
      refine ⟨List.replicate (m - 64) 'b', ?_⟩
      rw [← List.replicate_add]
      congr 1
      omega
    have hidx : indexOfSub (List.replicate m 'b') (List.replicate 64 'b') = some 0 := by
      unfold indexOfSub
      rw [if_pos hpre]
    rw [hlow, hidx]
    have hnew : (List.replicate m 'b').take 0 ++ List.replicate 70 'b' ++
        (List.replicate m 'b').drop (0 + (List.replicate 64 'b').length) =
        List.replicate (m + 6) 'b' := by
      simp only [List.take_zero, List.nil_append, List.length_replicate,
        Nat.zero_add, List.drop_replicate]
      rw [← List.replicate_add]
      congr 1
      omega
    show replaceAllLoop fuel (List.replicate 64 'b') (List.replicate 70 'b')
      ((List.replicate m 'b').take 0 ++ List.replicate 70 'b' ++
        (List.replicate m 'b').drop (0 + (List.replicate 64 'b').length))
      (count + 1) = none
    rw [hnew]
    exact ih (m + 6) (count + 1) (by omega)

/-- Counterexample to C9 as stated: `genericReplaceAddress` does not
terminate on every input.  With a 64-character "old address" and a
70-character "new address" (both already lowercase, no `0x` prefix), every
replacement re-creates the old pattern and lengthens the parameter string,
so no amount of fuel completes the loop. -/
theorem genericReplace_not_total :
    ¬ ∀ calldata originalAddress newAddress : Str,
        ∃ fuel res, genericReplaceAddressF fuel calldata originalAddress
          newAddress = some res := by
  intro hall
  obtain ⟨fuel, res, h⟩ := hall (str "0x12345678" ++ List.replicate 64 'b')
    (List.replicate 64 'b') (List.replicate 70 'b')
  have hA : normalizePadded (List.replicate 64 'b') = List.replicate 64 'b' := by
    decide
  have hB : normalizePadded (List.replicate 70 'b') = List.replicate 70 'b' := by
    decide
  unfold genericReplaceAddressF at h
  rw [hA, hB] at h
  rw [if_neg (by decide)] at h
  have hdropped : (str "0x12345678" ++ List.replicate 64 'b').drop 10 =
      List.replicate 64 'b' := List.drop_left' (by decide)
  rw [hdropped] at h
  simp only [replaceAllLoop_diverges fuel 64 0 (by omega)] at h
  exact Option.noConfusion h

theorem isSubstr_append_left (p rest : Str) : isSubstr (p ++ rest) p = true := by
  unfold isSubstr indexOfSub
  rw [if_pos (List.isPrefixOf_iff_prefix.mpr (List.prefix_append p rest))]
  rfl

/-- Claim C1 (amended): for every candidate transaction that has a target
contract and carries strictly positive native value, `attemptMintAllKeys`
performs no pre-check and no broadcast and returns one failure result per
signing key, carrying that key's name and address, `success = false`, and an
error marking the attempt as a skipped paid mint (the error contains
`Paid`).  (For contract-creation transactions — no target — the function
returns the empty list instead; see the counterexample.) -/
theorem attemptMintAllKeys_value_guard (env : Env) (fuel : Nat)
    (chainName : Str) (tx : Tx) (keys : List KeyRec) (t : Str)
    (hto : tx.toAddr = some t) (hval : 0 < tx.value) :
    ∃ results,
      attemptMintAllKeysF env fuel chainName tx keys =
        some (results, [Eff.notify]) ∧
      Eff.precheckCall ∉ ([Eff.notify] : List Eff) ∧
      Eff.broadcastCall ∉ ([Eff.notify] : List Eff) ∧
      results = keys.map (fun k =>
        { success := false, keyName := k.name, address := k.address,
          error := some (str "Paid (" ++ formatEther tx.value ++
            str " ETH)") }) ∧
      results.length = keys.length ∧
      ∀ r ∈ results, r.success = false ∧
        ∃ e, r.error = some e ∧ isSubstr e (str "Paid") = true := by
  refine ⟨_, ?_, by decide, by decide, rfl, by simp, ?_⟩
  · simp only [attemptMintAllKeysF, hto]
    rw [if_pos hval]
  · intro r hr
    rw [List.mem_map] at hr
    obtain ⟨k, _, rfl⟩ := hr
    refine ⟨rfl, str "Paid (" ++ formatEther tx.value ++ str " ETH)", rfl, ?_⟩
    have h0 : str "Paid (" = str "Paid" ++ str " (" := by decide
    rw [h0, List.append_assoc, List.append_assoc]
    exact isSubstr_append_left _ _

/-- Witness for the amended C1: a paid mint (0.01 ETH) with a target
contract and one signing key. -/
theorem attemptMintAllKeys_value_guard_witness :
    ({ toAddr := some (str "0xC0FFEE"), fromAddr := str "0xaaaa",
       data := str "0x1249c58b", value := 10 ^ 16, hash := str "0xh1" } : Tx).toAddr =
      some (str "0xC0FFEE") ∧
    (0 : Nat) < 10 ^ 16 ∧
    ∃ results,
      attemptMintAllKeysF envDefault 0 (str "ETH")
        { toAddr := some (str "0xC0FFEE"), fromAddr := str "0xaaaa",
          data := str "0x1249c58b", value := 10 ^ 16, hash := str "0xh1" }
        [{ privateKey := str "0xk", name := some (str "main"),
           address := str "0xB", autoList := false }] =
        some (results, [Eff.notify]) ∧
      Eff.precheckCall ∉ ([Eff.notify] : List Eff) ∧
      Eff.broadcastCall ∉ ([Eff.notify] : List Eff) ∧
      results = [({ privateKey := str "0xk", name := some (str "main"),
                    address := str "0xB", autoList := false } : KeyRec)].map (fun k =>
        { success := false, keyName := k.name, address := k.address,
          error := some (str "Paid (" ++ formatEther (10 ^ 16) ++
            str " ETH)") }) ∧
      results.length = 1 ∧
      ∀ r ∈ results, r.success = false ∧
        ∃ e, r.error = some e ∧ isSubstr e (str "Paid") = true :=
  ⟨rfl, by norm_num,
   attemptMintAllKeys_value_guard envDefault 0 (str "ETH")
     { toAddr := some (str "0xC0FFEE"), fromAddr := str "0xaaaa",
       data := str "0x1249c58b", value := 10 ^ 16, hash := str "0xh1" }
     [{ privateKey := str "0xk", name := some (str "main"),
        address := str "0xB", autoList := false }]
     (str "0xC0FFEE") rfl (by norm_num)⟩

/-- Counterexample to C1 as stated: a contract-creation candidate (no target
address) with positive value yields the empty result list, not one failure
result per signing key. -/
theorem attemptMintAllKeys_value_guard_counterexample :
    ¬ ∀ (env : Env) (fuel : Nat) (chainName : Str) (tx : Tx)
        (keys : List KeyRec),
        0 < tx.value →
        ∃ results effs,
          attemptMintAllKeysF env fuel chainName tx keys =
            some (results, effs) ∧
          results.length = keys.length := by
  intro hall
  obtain ⟨results, effs, heq, hlen⟩ := hall envDefault 0 (str "ETH")
    { toAddr := none, fromAddr := str "0xaaaa", data := str "0x", value := 1,
      hash := str "0xh2" }
    [{ privateKey := str "0xk", name := none, address := str "0xB",
       autoList := false }]
    (by norm_num)
  rw [show attemptMintAllKeysF envDefault 0 (str "ETH")
      { toAddr := none, fromAddr := str "0xaaaa", data := str "0x", value := 1,
        hash := str "0xh2" }
      [{ privateKey := str "0xk", name := none, address := str "0xB",
         autoList := false }] = some ([], []) from rfl] at heq
  simp only [Option.some.injEq, Prod.mk.injEq] at heq
  obtain ⟨h1, _⟩ := heq
  rw [← h1] at hlen
  simp at hlen

/-- Claim C6 (amended): for every attempt on a zero-value transaction with a
target contract where the signing key's derived address equals the original
sender case-insensitively, `attemptSingleMint` short-circuits with the
`Self-copy skipped` failure result and an empty effect trace — no calldata
transformation, no pre-check, no broadcast.  (On a paid transaction the
free-mint guard fires first and reports `Skipped paid mint` instead; see the
counterexample.) -/
theorem attemptSingleMint_self_copy_guard (env : Env) (fuel : Nat)
    (chainName : Str) (tx : Tx) (signerAddress : Str) (keyName : Option Str)
    (t : Str) (hto : tx.toAddr = some t) (hval : tx.value = 0)
    (hself : lower tx.fromAddr = lower signerAddress) :
    attemptSingleMintF env fuel chainName tx signerAddress keyName =
      some ({ success := false, keyName := keyName, address := signerAddress,
              error := some (str "Self-copy skipped") }, []) := by
  simp only [attemptSingleMintF, hto]
  rw [if_neg (by omega), if_pos hself]

/-- Witness for the amended C6: a free mint whose tracked sender equals the
signing key's address up to case. -/
theorem attemptSingleMint_self_copy_guard_witness :
    ({ toAddr := some (str "0xC0FFEE"), fromAddr := str "0xAbC",
       data := str "0x1249c58b", value := 0, hash := str "0xh5" } : Tx).value = 0 ∧
    lower (str "0xAbC") = lower (str "0xabc") ∧
    attemptSingleMintF envDefault 0 (str "ETH")
      { toAddr := some (str "0xC0FFEE"), fromAddr := str "0xAbC",
        data := str "0x1249c58b", value := 0, hash := str "0xh5" }
      (str "0xabc") (some (str "main")) =
      some ({ success := false, keyName := some (str "main"),
              address := str "0xabc",
              error := some (str "Self-copy skipped") }, []) :=
  ⟨rfl, by decide,
   attemptSingleMint_self_copy_guard envDefault 0 (str "ETH") _ _ _ _ rfl rfl
     (by decide)⟩

/-- Counterexample to C6 as stated: on a paid transaction whose sender
equals the signing address, the free-mint guard fires first, so the result
is `Skipped paid mint (…)`, not `Self-copy skipped`. -/
theorem attemptSingleMint_self_copy_counterexample :
    ¬ ∀ (env : Env) (fuel : Nat) (chainName : Str) (tx : Tx)
        (signerAddress : Str) (keyName : Option Str),
        lower tx.fromAddr = lower signerAddress →
        ∃ r effs,
          attemptSingleMintF env fuel chainName tx signerAddress keyName =
            some (r, effs) ∧ r.error = some (str "Self-copy skipped") := by
  intro hall
  obtain ⟨r, effs, heq, herr⟩ := hall envDefault 0 (str "ETH")
    { toAddr := some (str "0xC0FFEE"), fromAddr := str "0xabc",
      data := str "0x", value := 1, hash := str "0xh3" }
    (str "0xabc") none rfl
  rw [show attemptSingleMintF envDefault 0 (str "ETH")
      { toAddr := some (str "0xC0FFEE"), fromAddr := str "0xabc",
        data := str "0x", value := 1, hash := str "0xh3" }
      (str "0xabc") none =
      some ({ success := false, keyName := none, address := str "0xabc",
              error := some (str "Skipped paid mint (0.000000000000000001 ETH)") },
            []) from by decide] at heq
  simp only [Option.some.injEq, Prod.mk.injEq] at heq
  obtain ⟨h1, _⟩ := heq
  rw [← h1] at herr
  exact absurd herr (by decide)

theorem finishMint_fields (env : Env) (chainName signerAddress : Str)
    (keyName : Option Str) (txRequest : TxRequest) (teffs : List Eff)
    (r : MintResult) (effs : List Eff)
    (h : finishMint env chainName signerAddress keyName txRequest teffs =
      some (r, effs)) :
    r.address = signerAddress ∧ r.keyName = keyName := by
  unfold finishMint at h
  split at h
  · simp only [Option.some.injEq, Prod.mk.injEq] at h
    rw [← h.1]
    exact ⟨rfl, rfl⟩
  · split at h
    · simp only [Option.some.injEq, Prod.mk.injEq] at h
      rw [← h.1]
      exact ⟨rfl, rfl⟩
    · simp only [Option.some.injEq, Prod.mk.injEq] at h
      rw [← h.1]
      exact ⟨rfl, rfl⟩

theorem attemptSingleMintF_fields (env : Env) (fuel : Nat) (chainName : Str)
    (tx : Tx) (signerAddress : Str) (keyName : Option Str) (r : MintResult)
    (effs : List Eff)
    (h : attemptSingleMintF env fuel chainName tx signerAddress keyName =
      some (r, effs)) :
    r.address = signerAddress ∧ r.keyName = keyName := by
  unfold attemptSingleMintF at h
  split at h
  · simp only [Option.some.injEq, Prod.mk.injEq] at h
    rw [← h.1]
    exact ⟨rfl, rfl⟩
  · split at h
    · simp only [Option.some.injEq, Prod.mk.injEq] at h
      rw [← h.1]
      exact ⟨rfl, rfl⟩
    · split at h
      · simp only [Option.some.injEq, Prod.mk.injEq] at h
        rw [← h.1]
        exact ⟨rfl, rfl⟩
      · split at h
        · exact finishMint_fields _ _ _ _ _ _ _ _ h
        · split at h
          · split at h
            · exact finishMint_fields _ _ _ _ _ _ _ _ h
            · simp at h
          · exact finishMint_fields _ _ _ _ _ _ _ _ h

theorem collectKeyAttempts_spec (env : Env) (fuel : Nat) (chainName : Str)
    (tx : Tx) :
    ∀ (keys : List KeyRec) (results : List MintResult) (effs : List Eff),
      (∀ k ∈ keys, k.address ≠ []) →
      (∀ k ∈ keys, k.name ≠ some []) →
      (∀ k ∈ keys, ∀ a, env.derive k.privateKey = .ok a → a = k.address) →
      collectKeyAttempts env fuel chainName tx keys = some (results, effs) →
      results.length = keys.length ∧
      ∀ i (hi : i < keys.length) (hri : i < results.length),
        (results.get ⟨i, hri⟩).keyName = (keys.get ⟨i, hi⟩).name ∧
        (results.get ⟨i, hri⟩).address = (keys.get ⟨i, hi⟩).address := by
  intro keys
  induction keys with
  | nil =>
    intro results effs _ _ _ h
    unfold collectKeyAttempts at h
    simp only [Option.some.injEq, Prod.mk.injEq] at h
    obtain ⟨h1, _⟩ := h
    rw [← h1]
    refine ⟨rfl, ?_⟩
    intro i hi
    exact absurd hi (by simp)
  | cons k ks ih =>
    intro results effs haddr hname hderive h
    unfold collectKeyAttempts at h
    cases hrun : runKeyAttempt env fuel chainName tx k with
    | none =>
      rw [hrun] at h
      simp at h
    | some pr =>
      obtain ⟨r, reffs⟩ := pr
      rw [hrun] at h
      cases hcol : collectKeyAttempts env fuel chainName tx ks with
      | none =>
        rw [hcol] at h
        simp at h
      | some prs =>
        obtain ⟨rs, rseffs⟩ := prs
        rw [hcol] at h
        simp only [Option.some.injEq, Prod.mk.injEq] at h
        obtain ⟨h1, _⟩ := h
        subst h1
        have hhead : r.keyName = k.name ∧ r.address = k.address := by
          unfold runKeyAttempt at hrun
          cases hd : env.derive k.privateKey with
          | ok a =>
            rw [hd] at hrun
            have hfields := attemptSingleMintF_fields env fuel chainName tx a
              k.name r reffs hrun
            have ha : a = k.address := hderive k (by simp) a hd
            exact ⟨hfields.2, by rw [hfields.1, ha]⟩
          | error m =>
            rw [hd] at hrun
            simp only [Option.some.injEq, Prod.mk.injEq] at hrun
            obtain ⟨h2, _⟩ := hrun
            rw [← h2]
            constructor
            · cases hnm : k.name with
              | none => simp
              | some nm =>
                have hne : nm ≠ [] := by
                  intro hnil
                  exact hname k (by simp) (by rw [hnm, hnil])
                simp [if_neg hne]
            · have hne : k.address ≠ [] := haddr k (by simp)
              simp [if_neg hne]
        have htail := ih rs rseffs (fun k2 hk2 => haddr k2 (by simp [hk2]))
          (fun k2 hk2 => hname k2 (by simp [hk2]))
          (fun k2 hk2 => hderive k2 (by simp [hk2])) hcol
        refine ⟨by simp [htail.1], ?_⟩
        intro i hi hri
        cases i with
        | zero => exact ⟨hhead.1, hhead.2⟩
        | succ j =>
          have hj : j < ks.length := by simpa using hi
          have hrj : j < rs.length := by simpa using hri
          exact htail.2 j hj hrj

/-- Claim C10: `attemptMintAllKeys` returns the empty list for
contract-creation transactions (no target contract), and otherwise returns
exactly one result per supplied signing key, where the result at position
`i` carries key `i`'s name and address — also when that key's attempt threw
instead of resolving.  Hypotheses formalize well-formed key records: a
non-empty stored address, a name that is not the empty string, and the
data-model invariant that the stored address is the one derived from the
private key. -/
theorem attemptMintAllKeys_result_cardinality (env : Env) (fuel : Nat)
    (chainName : Str) (tx : Tx) (keys : List KeyRec)
    (haddr : ∀ k ∈ keys, k.address ≠ [])
    (hname : ∀ k ∈ keys, k.name ≠ some [])
    (hderive : ∀ k ∈ keys, ∀ a, env.derive k.privateKey = .ok a →
      a = k.address) :
    (tx.toAddr = none →
      attemptMintAllKeysF env fuel chainName tx keys = some ([], [])) ∧
    (∀ results effs, tx.toAddr ≠ none →
      attemptMintAllKeysF env fuel chainName tx keys = some (results, effs) →
      results.length = keys.length ∧
      ∀ i (hi : i < keys.length) (hri : i < results.length),
        (results.get ⟨i, hri⟩).keyName = (keys.get ⟨i, hi⟩).name ∧
        (results.get ⟨i, hri⟩).address = (keys.get ⟨i, hi⟩).address) := by
  constructor
  · intro hto
    simp only [attemptMintAllKeysF, hto]
  · intro results effs hto h
    cases hta : tx.toAddr with
    | none => exact absurd hta hto
    | some t =>
      simp only [attemptMintAllKeysF, hta] at h
      by_cases hval : 0 < tx.value
      · rw [if_pos hval] at h
        simp only [Option.some.injEq, Prod.mk.injEq] at h
        obtain ⟨h1, _⟩ := h
        subst h1
        refine ⟨by simp, ?_⟩
        intro i hi hri
        constructor
        · simp [List.get_map]
        · simp [List.get_map]
      · rw [if_neg hval] at h
        cases hcol : collectKeyAttempts env fuel chainName tx keys with
        | none =>
          rw [hcol] at h
          simp at h
        | some pr =>
          obtain ⟨rs, aeffs⟩ := pr
          rw [hcol] at h
          simp only [Option.some.injEq, Prod.mk.injEq] at h
          obtain ⟨h1, _⟩ := h
          subst h1
          exact collectKeyAttempts_spec env fuel chainName tx keys rs aeffs
            haddr hname hderive hcol

/-- Witness for C10: two keys — one whose attempt resolves (rejected at the
pre-check) and one whose wallet construction throws — still produce exactly
one result each, in order, carrying each key's name and address. -/
theorem attemptMintAllKeys_result_cardinality_witness :
    attemptMintAllKeysF envThrowSecond 0 (str "ETH")
      { toAddr := some (str "0xC0FFEE"), fromAddr := str "0xDD",
        data := str "0x1249c58b", value := 0, hash := str "0xh4" }
      [{ privateKey := str "0xA", name := some (str "main"),
         address := str "0xA", autoList := false },
       { privateKey := [], name := none, address := str "0xB",
         autoList := true }] =
      some ([{ success := false, keyName := some (str "main"),
               address := str "0xA", error := some (str "Not eligible"),
               skippedPrecheck := true },
             { success := false, keyName := none, address := str "0xB",
               error := some (str "invalid private key") }],
            [Eff.notify, Eff.precheckCall, Eff.record false, Eff.notify]) ∧
    (∀ results effs,
      ({ toAddr := some (str "0xC0FFEE"), fromAddr := str "0xDD",
         data := str "0x1249c58b", value := 0, hash := str "0xh4" } : Tx).toAddr ≠
        none →
      attemptMintAllKeysF envThrowSecond 0 (str "ETH")
        { toAddr := some (str "0xC0FFEE"), fromAddr := str "0xDD",
          data := str "0x1249c58b", value := 0, hash := str "0xh4" }
        [{ privateKey := str "0xA", name := some (str "main"),
           address := str "0xA", autoList := false },
         { privateKey := [], name := none, address := str "0xB",
           autoList := true }] = some (results, effs) →
      results.length = 2 ∧
      ∀ i (hi : i < ([{ privateKey := str "0xA", name := some (str "main"),
                        address := str "0xA", autoList := false },
                      { privateKey := [], name := none, address := str "0xB",
                        autoList := true }] : List KeyRec).length)
        (hri : i < results.length),
        (results.get ⟨i, hri⟩).keyName =
          (([{ privateKey := str "0xA", name := some (str "main"),
               address := str "0xA", autoList := false },
             { privateKey := [], name := none, address := str "0xB",
               autoList := true }] : List KeyRec).get ⟨i, hi⟩).name ∧
        (results.get ⟨i, hri⟩).address =
          (([{ privateKey := str "0xA", name := some (str "main"),
               address := str "0xA", autoList := false },
             { privateKey := [], name := none, address := str "0xB",
               autoList := true }] : List KeyRec).get ⟨i, hi⟩).address) :=
  ⟨by decide,
   (attemptMintAllKeys_result_cardinality envThrowSecond 0 (str "ETH")
      { toAddr := some (str "0xC0FFEE"), fromAddr := str "0xDD",
        data := str "0x1249c58b", value := 0, hash := str "0xh4" }
      [{ privateKey := str "0xA", name := some (str "main"),
         address := str "0xA", autoList := false },
       { privateKey := [], name := none, address := str "0xB",
         autoList := true }]
      (by decide) (by decide)
      (by
        intro k hk a ha
        simp only [List.mem_cons, List.not_mem_nil, or_false] at hk
        rcases hk with rfl | rfl
        · simp only [envThrowSecond] at ha
          rw [if_neg (by decide)] at ha
          injection ha with h
          exact h.symm
        · simp [envThrowSecond] at ha)).2⟩

/-- Claim C2: a transaction hash already present in the ProcessedSet is
never re-evaluated — delivery of such a transaction (by either the push or
the poll path, both of which run this per-transaction body) performs no
classifier call and no replay work and leaves the state unchanged; and
every evaluated candidate from a tracked sender that is not yet in the set
is added to the set, whichever gate it takes (missing calldata, missing
target, classifier rejection, or acceptance). -/
theorem processTx_dedup (adminId : Str) (walletMap : Str → Option (List Tracker))
    (keysOf : Str → List KeyRec) (st : WatchState) (tx : Tx) :
    (tx.hash ∈ st.processedTxs →
      processTx adminId walletMap keysOf st tx = (st, [])) ∧
    (∀ trackers, walletMap (lower tx.fromAddr) = some trackers →
      tx.hash ∉ st.processedTxs →
      tx.hash ∈ (processTx adminId walletMap keysOf st tx).1.processedTxs) := by
  constructor
  · intro hmem
    unfold processTx
    cases hw : walletMap (lower tx.fromAddr) with
    | none => rfl
    | some trackers => simp [hmem]
  · intro trackers hw hnot
    simp only [processTx, hw]
    rw [if_neg hnot]
    split_ifs <;> simp

/-- Witness for C2: a concrete already-processed hash produces no work, and
a concrete fresh hash is added to the set. -/
theorem processTx_dedup_witness :
    processTx (str "42")
      (fun a => if a = str "0xaa" then
        some [{ userId := str "u1", chatId := 7, username := none }] else none)
      (fun _ => []) { processedTxs := [str "0xh9"] }
      { toAddr := some (str "0xC0FFEE"), fromAddr := str "0xAA",
        data := str "0x1249c58b", value := 0, hash := str "0xh9" } =
      ({ processedTxs := [str "0xh9"] }, []) ∧
    str "0xh9" ∈ (processTx (str "42")
      (fun a => if a = str "0xaa" then
        some [{ userId := str "u1", chatId := 7, username := none }] else none)
      (fun _ => []) { processedTxs := [] }
      { toAddr := some (str "0xC0FFEE"), fromAddr := str "0xAA",
        data := str "0x1249c58b", value := 0, hash := str "0xh9" }).1.processedTxs :=
  ⟨(processTx_dedup (str "42") _ (fun _ => []) { processedTxs := [str "0xh9"] }
      { toAddr := some (str "0xC0FFEE"), fromAddr := str "0xAA",
        data := str "0x1249c58b", value := 0, hash := str "0xh9" }).1
    (by decide),
   (processTx_dedup (str "42") _ (fun _ => []) { processedTxs := [] }
      { toAddr := some (str "0xC0FFEE"), fromAddr := str "0xAA",
        data := str "0x1249c58b", value := 0, hash := str "0xh9" }).2
    [{ userId := str "u1", chatId := 7, username := none }]
    (by decide) (by decide)⟩

theorem batch_structure : ∀ (n : Nat) (l : List Str), l.length ≤ n →
    (batchChunks l).flatten = l ∧
    (∀ c ∈ batchChunks l, c ≠ [] ∧ c.length ≤ 5) ∧
    (∀ c ∈ (batchChunks l).dropLast, c.length = 5) ∧
    processMintBatches l =
      List.intersperse (Sched.wait BATCH_DELAY_MS)
        ((batchChunks l).map Sched.batch) := by
  have hnilc : batchChunks [] = [] := by rw [batchChunks]
  have hnilp : processMintBatches [] = [] := by rw [processMintBatches]
  intro n
  induction n with
  | zero =>
    intro l hl
    have hz : l = [] := List.length_eq_zero.mp (by omega)
    subst hz
    exact ⟨by simp [hnilc], by simp [hnilc], by simp [hnilc],
      by simp [hnilc, hnilp]⟩
  | succ n ih =>
    intro l hl
    cases l with
    | nil =>
      exact ⟨by simp [hnilc], by simp [hnilc], by simp [hnilc],
        by simp [hnilc, hnilp]⟩
    | cons x xs =>
      have hbc : batchChunks (x :: xs) =
          (x :: xs).take 5 :: batchChunks ((x :: xs).drop 5) := by
        rw [batchChunks]
      have hpm : processMintBatches (x :: xs) =
          Sched.batch ((x :: xs).take BATCH_SIZE) ::
            (if BATCH_SIZE < (x :: xs).length then
              Sched.wait BATCH_DELAY_MS ::
                processMintBatches ((x :: xs).drop BATCH_SIZE)
            else []) := by
        rw [processMintBatches]
      have hdlen : ((x :: xs).drop 5).length ≤ n := by
        simp only [List.length_drop, List.length_cons]
        simp only [List.length_cons] at hl
        omega
      obtain ⟨ihj, ihm, ihd, ihp⟩ := ih ((x :: xs).drop 5) hdlen
      by_cases h5 : 5 < (x :: xs).length
      · have hdne : (x :: xs).drop 5 ≠ [] := by
          intro habs
          have := congrArg List.length habs
          simp only [List.length_drop, List.length_cons, List.length_nil] at this
          simp only [List.length_cons] at h5
          omega
        have hchne : batchChunks ((x :: xs).drop 5) ≠ [] := by
          cases hd : (x :: xs).drop 5 with
          | nil => exact absurd hd hdne
          | cons y ys =>
            rw [batchChunks]
            simp
        refine ⟨?_, ?_, ?_, ?_⟩
        · rw [hbc, List.flatten_cons, ihj, List.take_append_drop]
        · intro c hc
          rw [hbc] at hc
          rcases List.mem_cons.mp hc with rfl | htail
          · constructor
            · intro habs
              have := congrArg List.length habs
              simp only [List.length_take, List.length_cons,
                List.length_nil] at this
              omega
            · rw [List.length_take]
              omega
          · exact ihm c htail
        · intro c hc
          rw [hbc, List.dropLast_cons_of_ne_nil hchne] at hc
          rcases List.mem_cons.mp hc with rfl | htail
          · rw [List.length_take]
            simp only [List.length_cons] at h5 ⊢
            omega
          · exact ihd c htail
        · rw [hpm, hbc]
          simp only [BATCH_SIZE, BATCH_DELAY_MS] at *
          rw [if_pos h5]
          cases hch : batchChunks ((x :: xs).drop 5) with
          | nil => exact absurd hch hchne
          | cons c cs =>
            rw [hch] at ihp
            simp only [List.map_cons, List.intersperse_cons_cons]
            rw [ihp]
            simp only [List.map_cons]
      · have hd0 : (x :: xs).drop 5 = [] :=
          List.drop_eq_nil_of_le (by omega)
        have htk : (x :: xs).take 5 = x :: xs :=
          List.take_of_length_le (by omega)
        refine ⟨?_, ?_, ?_, ?_⟩
        · rw [hbc, hd0, hnilc, List.flatten_cons]
          simp [htk]
        · intro c hc
          rw [hbc, hd0, hnilc] at hc
          rcases List.mem_cons.mp hc with rfl | htail
          · exact ⟨by simp [htk], by rw [List.length_take]; omega⟩
          · cases htail
        · intro c hc
          rw [hbc, hd0, hnilc] at hc
          simp at hc
        · rw [hpm, hbc, hd0, hnilc]
          simp only [BATCH_SIZE, BATCH_DELAY_MS] at *
          rw [if_neg h5]
          simp [List.intersperse_singleton]

/-- Claim C8: when a privileged (admin) subscriber is among the trackers of
one qualifying transaction and has at least one key, its awaited
`attemptMintAllKeys` run is the first event of the schedule — all of its
key attempts complete before the first attempt of any other subscriber —
and the remaining subscribers' runs follow as fixed-size batches of
`BATCH_SIZE = 5` subscriber tasks (the last batch possibly smaller), each
batch awaited until every attempt in it has settled, with a
`BATCH_DELAY_MS = 200` delay between consecutive batches; the batches
enumerate exactly the non-admin trackers that have keys, in order. -/
theorem orchestrate_priority_batches (adminId : Str) (trackers : List Tracker)
    (keysOf : Str → List KeyRec) (a : Tracker)
    (hid : adminId ≠ [])
    (hfind : trackers.find? (fun t => isAdminTracker adminId t) = some a)
    (hkeys : keysOf a.userId ≠ []) :
    ∃ tasks,
      tasks = ((trackers.filter (fun t => ! isAdminTracker adminId t)).filter
        (fun t => ! (keysOf t.userId).isEmpty)).map (fun t => t.userId) ∧
      orchestrateReplay adminId trackers keysOf =
        Sched.adminMint a.userId ::
          List.intersperse (Sched.wait BATCH_DELAY_MS)
            ((batchChunks tasks).map Sched.batch) ∧
      (batchChunks tasks).flatten = tasks ∧
      (∀ c ∈ batchChunks tasks, c ≠ [] ∧ c.length ≤ BATCH_SIZE) ∧
      (∀ c ∈ (batchChunks tasks).dropLast, c.length = BATCH_SIZE) ∧
      (∀ u ∈ tasks, ∃ t, t ∈ trackers ∧ t.userId = u ∧
        isAdminTracker adminId t = false ∧ keysOf t.userId ≠ []) := by
  obtain ⟨hj, hm, hd, hp⟩ := batch_structure
    (((trackers.filter (fun t => ! isAdminTracker adminId t)).filter
      (fun t => ! (keysOf t.userId).isEmpty)).map (fun t => t.userId)).length
    (((trackers.filter (fun t => ! isAdminTracker adminId t)).filter
      (fun t => ! (keysOf t.userId).isEmpty)).map (fun t => t.userId)) le_rfl
  refine ⟨_, rfl, ?_, hj, hm, hd, ?_⟩
  · unfold orchestrateReplay
    simp only [if_neg hid, hfind]
    rw [if_neg hkeys, hp]
    rfl
  · intro u hu
    rw [List.mem_map] at hu
    obtain ⟨t, ht, rfl⟩ := hu
    rw [List.mem_filter] at ht
    obtain ⟨ht1, ht2⟩ := ht
    rw [List.mem_filter] at ht1
    obtain ⟨htr, hadm⟩ := ht1
    refine ⟨t, htr, rfl, ?_, ?_⟩
    · simpa using hadm
    · intro habs
      rw [habs] at ht2
      simp at ht2

/-- Witness for C8: with six non-admin subscribers the schedule is the
admin run, a batch of five, a 200 ms delay, and a final batch of one. -/
theorem orchestrate_priority_batches_witness :
    (str "42" : Str) ≠ [] ∧
    trackersW.find? (fun t => isAdminTracker (str "42") t) = some adminTrackerW ∧
    keysOfW adminTrackerW.userId ≠ [] ∧
    (∃ tasks,
      tasks = ((trackersW.filter (fun t => ! isAdminTracker (str "42") t)).filter
        (fun t => ! (keysOfW t.userId).isEmpty)).map (fun t => t.userId) ∧
      orchestrateReplay (str "42") trackersW keysOfW =
        Sched.adminMint adminTrackerW.userId ::
          List.intersperse (Sched.wait BATCH_DELAY_MS)
            ((batchChunks tasks).map Sched.batch) ∧
      (batchChunks tasks).flatten = tasks ∧
      (∀ c ∈ batchChunks tasks, c ≠ [] ∧ c.length ≤ BATCH_SIZE) ∧
      (∀ c ∈ (batchChunks tasks).dropLast, c.length = BATCH_SIZE) ∧
      (∀ u ∈ tasks, ∃ t, t ∈ trackersW ∧ t.userId = u ∧
        isAdminTracker (str "42") t = false ∧ keysOfW t.userId ≠ [])) ∧
    orchestrateReplay (str "42") trackersW keysOfW =
      [Sched.adminMint (str "42"),
       Sched.batch [str "u1", str "u2", str "u3", str "u4", str "u5"],
       Sched.wait 200,
       Sched.batch [str "u6"]] :=
  ⟨by decide, by decide, by decide,
   orchestrate_priority_batches (str "42") trackersW keysOfW adminTrackerW
     (by decide) (by decide) (by decide),
   by
     obtain ⟨tasks, htasks, horch, _, _, _, _⟩ :=
       orchestrate_priority_batches (str "42") trackersW keysOfW adminTrackerW
         (by decide) (by decide) (by decide)
     rw [horch,
       show tasks = [str "u1", str "u2", str "u3", str "u4", str "u5", str "u6"]
         from htasks.trans (by decide)]
     have hch : batchChunks
         [str "u1", str "u2", str "u3", str "u4", str "u5", str "u6"] =
         [[str "u1", str "u2", str "u3", str "u4", str "u5"], [str "u6"]] := by
       rw [batchChunks]
       have d1 : List.drop 5
           [str "u1", str "u2", str "u3", str "u4", str "u5", str "u6"] =
           [str "u6"] := rfl
       have t1 : List.take 5
           [str "u1", str "u2", str "u3", str "u4", str "u5", str "u6"] =
           [str "u1", str "u2", str "u3", str "u4", str "u5"] := rfl
       rw [d1, t1, batchChunks]
       have d2 : List.drop 5 [str "u6"] = ([] : List Str) := rfl
       have t2 : List.take 5 [str "u6"] = [str "u6"] := rfl
       rw [d2, t2, batchChunks]
     rw [hch]
     decide⟩
